import Mathlib

/-!
Verification of the DALI batched image-resize engine
(`src/dali/pipeline/operators/crop/crop.cc`, resize-table part).

The C++ sources are shallowly embedded below:
pure helper functions become Lean functions on `ℕ`, the
construction/resampling loops become explicit index computations
(lists of emitted `(address, area)` pairs and folds), the fallible
setup code becomes `Except String`-valued functions, and the saturating
32-bit accumulation is carried out on `ℕ` with the explicit constant
`UINT_MAX = 2^32 - 1`.
-/

set_option maxHeartbeats 1600000

namespace dali

/-! ## §1 Rational Grid Calculator (crop.cc lines 217-237)

The C code:
```
int gcf(int a, int b) {
  int t;
  if (b > a) { t = a; a = b; b = t; }
  while (b) { t = a % b; a = b; b = t; }
  return a;
}
int lcm(int a, int b) { return a / gcf(a, b) * b; }
```
The `while (b)` loop is embedded with an explicit fuel argument; the
second component strictly decreases on every iteration (`a % b < b`),
so fuel `b + 1` always suffices. -/

def gcfAux : ℕ → ℕ → ℕ → ℕ
  | 0, a, _ => a
  | fuel + 1, a, b => if b = 0 then a else gcfAux fuel b (a % b)

/-- Greatest common factor, translated from `gcf` in crop.cc (the initial
swap makes `a ≥ b`, then Euclid's loop runs on `(a, b)`). -/
def gcf (a b : ℕ) : ℕ := if b > a then gcfAux (a + 1) b a else gcfAux (b + 1) a b

/-- Least common multiple, translated from `lcm` in crop.cc:
`a / gcf(a, b) * b`. -/
def lcm (a b : ℕ) : ℕ := a / gcf a b * b

lemma gcfAux_eq_gcd : ∀ (fuel a b : ℕ), b ≤ fuel → gcfAux (fuel + 1) a b = Nat.gcd b a := by
  intro fuel
  induction fuel with
  | zero =>
    intro a b hb
    interval_cases b
    simp [gcfAux]
  | succ f ih =>
    intro a b hb
    by_cases h0 : b = 0
    · simp [gcfAux, h0]
    · have hlt : a % b < b := Nat.mod_lt _ (Nat.pos_of_ne_zero h0)
      have : gcfAux (f + 1 + 1) a b = gcfAux (f + 1) b (a % b) := by
        simp [gcfAux, h0]
      rw [this, ih b (a % b) (by omega)]
      exact (Nat.gcd_rec b a).symm

lemma gcf_eq_gcd (a b : ℕ) : gcf a b = Nat.gcd a b := by
  unfold gcf
  by_cases h : b > a
  · rw [if_pos h, gcfAux_eq_gcd a b a le_rfl, Nat.gcd_comm]
  · rw [if_neg h, gcfAux_eq_gcd b a b le_rfl, Nat.gcd_comm]

lemma lcm_eq_lcm (a b : ℕ) (ha : 0 < a) : lcm a b = Nat.lcm a b := by
  unfold lcm
  rw [gcf_eq_gcd, Nat.lcm, mul_comm a b, Nat.mul_div_assoc b (Nat.gcd_dvd_left a b), mul_comm]

lemma lcm_pos (a b : ℕ) (ha : 0 < a) (hb : 0 < b) : 0 < lcm a b := by
  rw [lcm_eq_lcm a b ha]; exact Nat.pos_of_ne_zero (Nat.lcm_ne_zero ha.ne' hb.ne')

lemma dvd_lcm_left' (a b : ℕ) (ha : 0 < a) : a ∣ lcm a b := by
  rw [lcm_eq_lcm a b ha]; exact Nat.dvd_lcm_left a b

lemma dvd_lcm_right' (a b : ℕ) (ha : 0 < a) : b ∣ lcm a b := by
  rw [lcm_eq_lcm a b ha]; exact Nat.dvd_lcm_right a b

/-- `d0 * (lcm d0 d1 / d0) = lcm d0 d1`: the scaled axis length is the same
measured in source steps and in destination steps. -/
lemma mul_lcm_div_self_left (d0 d1 : ℕ) (h0 : 0 < d0) (h1 : 0 < d1) :
    d0 * (lcm d0 d1 / d0) = lcm d0 d1 :=
  Nat.mul_div_cancel' (dvd_lcm_left' d0 d1 h0) ..

lemma mul_lcm_div_self_right (d0 d1 : ℕ) (h0 : 0 < d0) (h1 : 0 < d1) :
    d1 * (lcm d0 d1 / d1) = lcm d0 d1 :=
  Nat.mul_div_cancel' (dvd_lcm_right' d0 d1 h0) ..

/-- A grid step `lcm d0 d1 / d0` is always positive for positive extents. -/
lemma step_pos (d0 d1 : ℕ) (h0 : 0 < d0) (h1 : 0 < d1) : 0 < lcm d0 d1 / d0 :=
  Nat.div_pos (Nat.le_of_dvd (lcm_pos d0 d1 h0 h1) (dvd_lcm_left' d0 d1 h0)) h0

lemma step_pos_right (d0 d1 : ℕ) (h0 : 0 < d0) (h1 : 0 < d1) : 0 < lcm d0 d1 / d1 :=
  Nat.div_pos (Nat.le_of_dvd (lcm_pos d0 d1 h0 h1) (dvd_lcm_right' d0 d1 h0)) h1

/-- A grid step `lcm d0 d1 / d1` is bounded by the other extent `d0`. -/
lemma step_le (d0 d1 : ℕ) (h0 : 0 < d0) (h1 : 0 < d1) : lcm d0 d1 / d1 ≤ d0 := by
  rw [lcm_eq_lcm d0 d1 h0]
  calc Nat.lcm d0 d1 / d1 ≤ d0 * d1 / d1 :=
        Nat.div_le_div_right (Nat.le_of_dvd (by positivity) (Nat.lcm_dvd_mul d0 d1))
    _ = d0 := Nat.mul_div_cancel d0 h1

/-- Claim C4: for all positive integers `d0, d1`,
`gcf(d0,d1)*lcm(d0,d1) = d0*d1`, and the grid steps
`stepSrc = lcm/d0`, `stepDst = lcm/d1` satisfy
`d0*stepSrc = d1*stepDst = lcm(d0,d1)`; when `d0 = d1` both steps are 1. -/
theorem gridSteps_exact (d0 d1 : ℕ) (h0 : 0 < d0) (h1 : 0 < d1) :
    gcf d0 d1 * lcm d0 d1 = d0 * d1 ∧
    d0 * (lcm d0 d1 / d0) = lcm d0 d1 ∧
    d1 * (lcm d0 d1 / d1) = lcm d0 d1 ∧
    (d0 = d1 → lcm d0 d1 / d0 = 1 ∧ lcm d0 d1 / d1 = 1) := by
  refine ⟨?_, mul_lcm_div_self_left d0 d1 h0 h1, mul_lcm_div_self_right d0 d1 h0 h1, ?_⟩
  · rw [gcf_eq_gcd, lcm_eq_lcm d0 d1 h0]
    exact Nat.gcd_mul_lcm d0 d1
  · rintro rfl
    have : lcm d0 d0 = d0 := by rw [lcm_eq_lcm d0 d0 h0, Nat.lcm_self]
    rw [this, Nat.div_self h0]
    exact ⟨rfl, rfl⟩

/-- Witness for C4 at the concrete input `(4, 6)`. -/
theorem gridSteps_exact_witness :
    ((0 < 4 ∧ 0 < 6) ∧
      (gcf 4 6 * lcm 4 6 = 4 * 6 ∧
       4 * (lcm 4 6 / 4) = lcm 4 6 ∧
       6 * (lcm 4 6 / 6) = lcm 4 6 ∧
       (4 = 6 → lcm 4 6 / 4 = 1 ∧ lcm 4 6 / 6 = 1))) :=
  ⟨⟨by decide, by decide⟩, gridSteps_exact 4 6 (by decide) (by decide)⟩

/-! ## §2 Per-axis intersection segments

`PixMappingHelper::constructTable` (crop.cc 607-673) and the
table-free fallback branch of `ResizeFunc` (crop.cc 806-851) share the
same per-axis computation.  For a destination footprint `[a, a+s1)`
laid over a source grid of step `s0` the code computes
```
begIdx   = a / s0
endIdx   = (a + s1) / s0
extra    = min((a + s1) % s0, s1)
lenFirst = s0 - a % s0
```
and visits the source cells `begIdx..endIdx`: the cell `endIdx` with
weight `extra` (only if `extra != 0`), the interior cells with weight
`s0`, and the cell `begIdx` with weight `lenFirst` (the X loop walks
right-to-left, the Y loop top-to-bottom; all consumers below only use
the emitted multiset through sums and membership, which are order
independent).  `segList` is the list of `(cell index, weight)` pairs
one such loop emits. -/

def segList (a s1 s0 : ℕ) : List (ℕ × ℕ) :=
  let b := a / s0
  let e := (a + s1) / s0
  let ex := min ((a + s1) % s0) s1
  if e = b then (if ex = 0 then [] else [(b, ex)])
  else ((if ex = 0 then [] else [(e, ex)]) ++
        (List.range (e - b - 1)).map (fun i => (e - 1 - i, s0))) ++
       [(b, s0 - a % s0)]

lemma lt_succ_div_mul (x s : ℕ) (hs : 0 < s) : x < (x / s + 1) * s := by
  conv_lhs => rw [← Nat.div_add_mod x s]
  calc s * (x / s) + x % s < s * (x / s) + s := Nat.add_lt_add_left (Nat.mod_lt x hs) _
    _ = (x / s + 1) * s := by ring

/-- Every emitted pair `(k, w)` satisfies `a/s0 ≤ k`, `k*s0 < a+s1` and
`w > 0` (so `AddPixel` is never called with a zero area and never on a
cell outside the footprint). -/
lemma segList_mem (a s1 s0 : ℕ) (hs0 : 0 < s0) (hs1 : 0 < s1) {k w : ℕ}
    (hp : (k, w) ∈ segList a s1 s0) :
    a / s0 ≤ k ∧ k * s0 < a + s1 ∧ 0 < w := by
  have hb_le : a / s0 * s0 ≤ a := Nat.div_mul_le_self a s0
  have he_le : (a + s1) / s0 * s0 ≤ a + s1 := Nat.div_mul_le_self _ s0
  have hbe : a / s0 ≤ (a + s1) / s0 := Nat.div_le_div_right (Nat.le_add_right a s1)
  have hm : a % s0 < s0 := Nat.mod_lt _ hs0
  have hdm2 : s0 * ((a + s1) / s0) + (a + s1) % s0 = a + s1 := Nat.div_add_mod _ s0
  have hcm2 : s0 * ((a + s1) / s0) = (a + s1) / s0 * s0 := mul_comm ..
  simp only [segList] at hp
  generalize hB : a / s0 = B at *
  generalize hE : (a + s1) / s0 = E at *
  generalize hR2 : (a + s1) % s0 = r2 at *
  have hmid : ∀ i : ℕ, i < E - B - 1 → (E - 1 - i) * s0 < a + s1 := by
    intro i hi
    have hup : (E - 1 - i + 1) * s0 ≤ E * s0 := mul_le_mul_right' (by omega) s0
    have hsucc : (E - 1 - i + 1) * s0 = (E - 1 - i) * s0 + s0 := by ring
    omega
  split_ifs at hp with h1 h2 h3
  · simp at hp
  · simp only [List.mem_singleton, Prod.mk.injEq] at hp
    obtain ⟨rfl, rfl⟩ := hp
    exact ⟨le_rfl, by omega, by omega⟩
  · -- e ≠ b, ex = 0: members are the interior cells and the begIdx cell
    simp only [List.nil_append, List.mem_append, List.mem_map, List.mem_range,
      List.mem_singleton, Prod.mk.injEq] at hp
    rcases hp with ⟨i, hi, rfl, rfl⟩ | ⟨rfl, rfl⟩
    · exact ⟨by omega, hmid i hi, by omega⟩
    · exact ⟨le_rfl, by omega, by omega⟩
  · simp only [List.mem_append, List.mem_map, List.mem_range, List.mem_singleton,
      Prod.mk.injEq] at hp
    rcases hp with (⟨rfl, rfl⟩ | ⟨i, hi, rfl, rfl⟩) | ⟨rfl, rfl⟩
    · exact ⟨hbe, by omega, by omega⟩
    · exact ⟨by omega, hmid i hi, by omega⟩
    · exact ⟨le_rfl, by omega, by omega⟩

/-- Exact overlap length of the footprint `[a, a+s1)` with source cell
`[k*s0, (k+1)*s0)` (truncated subtraction clips empty intersections). -/
def ovl (a s1 s0 k : ℕ) : ℕ := min (a + s1) ((k + 1) * s0) - max a (k * s0)

/-- Cumulative coverage function used to telescope `ovl`. -/
def covG (a s1 s0 k : ℕ) : ℕ := min (a + s1) (max a (k * s0))

lemma covG_mono (a s1 s0 : ℕ) : Monotone (covG a s1 s0) := by
  intro i j hij
  have h : i * s0 ≤ j * s0 := mul_le_mul_right' hij s0
  unfold covG
  omega

lemma ovl_eq_sub (a s1 s0 k : ℕ) : ovl a s1 s0 k = covG a s1 s0 (k + 1) - covG a s1 s0 k := by
  unfold ovl covG
  have h : (k + 1) * s0 = k * s0 + s0 := by ring
  omega

lemma sum_sub_telescope (G : ℕ → ℕ) (hG : Monotone G) (N : ℕ) :
    (Finset.range N).sum (fun k => G (k + 1) - G k) = G N - G 0 := by
  induction N with
  | zero => simp
  | succ m ih =>
    rw [Finset.sum_range_succ, ih]
    have h1 : G 0 ≤ G m := hG (Nat.zero_le m)
    have h2 : G m ≤ G (m + 1) := hG (Nat.le_succ m)
    omega

/-- The overlaps of one destination footprint with all source cells sum
to exactly `s1` (the fact behind the `RUN_CHECK_1` assert in crop.cc). -/
lemma sum_ovl (a s1 s0 N : ℕ) (hs0 : 0 < s0) (hN : a + s1 ≤ N * s0) :
    (Finset.range N).sum (ovl a s1 s0) = s1 := by
  have h1 : (Finset.range N).sum (ovl a s1 s0)
      = (Finset.range N).sum (fun k => covG a s1 s0 (k + 1) - covG a s1 s0 k) :=
    Finset.sum_congr rfl (fun k _ => ovl_eq_sub a s1 s0 k)
  rw [h1, sum_sub_telescope _ (covG_mono a s1 s0) N]
  unfold covG
  omega

lemma list_range_map_sum (n : ℕ) (h : ℕ → ℕ) :
    ((List.range n).map h).sum = (Finset.range n).sum h := by
  induction n with
  | zero => simp
  | succ m ih =>
    rw [List.range_succ, Finset.sum_range_succ, List.map_append, List.sum_append]
    simp [ih]

/-- Closed form of one intersection loop: the weighted sum it
accumulates equals the `ovl`-weighted sum over all source cells. -/
lemma segList_wsum (a s1 s0 N : ℕ) (hs0 : 0 < s0) (hs1 : 0 < s1)
    (hN : a + s1 ≤ N * s0) (f : ℕ → ℕ) :
    ((segList a s1 s0).map (fun p => p.2 * f p.1)).sum
      = (Finset.range N).sum (fun k => ovl a s1 s0 k * f k) := by
  have hb_le : a / s0 * s0 ≤ a := Nat.div_mul_le_self a s0
  have he_le : (a + s1) / s0 * s0 ≤ a + s1 := Nat.div_mul_le_self _ s0
  have hb_lt : a < (a / s0 + 1) * s0 := lt_succ_div_mul a s0 hs0
  have he_lt : a + s1 < ((a + s1) / s0 + 1) * s0 := lt_succ_div_mul _ s0 hs0
  have hbe : a / s0 ≤ (a + s1) / s0 := Nat.div_le_div_right (Nat.le_add_right a s1)
  have hm : a % s0 < s0 := Nat.mod_lt _ hs0
  have hm2 : (a + s1) % s0 < s0 := Nat.mod_lt _ hs0
  have hdm : s0 * (a / s0) + a % s0 = a := Nat.div_add_mod a s0
  have hdm2 : s0 * ((a + s1) / s0) + (a + s1) % s0 = a + s1 := Nat.div_add_mod _ s0
  have hcm : s0 * (a / s0) = a / s0 * s0 := mul_comm ..
  have hcm2 : s0 * ((a + s1) / s0) = (a + s1) / s0 * s0 := mul_comm ..
  simp only [segList]
  generalize hB : a / s0 = B at *
  generalize hE : (a + s1) / s0 = E at *
  generalize hR : a % s0 = r at *
  generalize hR2 : (a + s1) % s0 = r2 at *
  have hzero_lo : ∀ k, k < B → ovl a s1 s0 k = 0 := by
    intro k hk
    have h1 : (k + 1) * s0 ≤ B * s0 := mul_le_mul_right' (by omega) s0
    unfold ovl
    omega
  have hzero_hi : ∀ k, a + s1 ≤ k * s0 → ovl a s1 s0 k = 0 := by
    intro k hk
    have h1 : k * s0 ≤ (k + 1) * s0 := mul_le_mul_right' (by omega) s0
    unfold ovl
    omega
  have hvanish : ∀ M₁ M₂ : ℕ, M₁ ≤ M₂ → (∀ k, M₁ ≤ k → ovl a s1 s0 k = 0) →
      (Finset.range M₂).sum (fun k => ovl a s1 s0 k * f k)
        = (Finset.range M₁).sum (fun k => ovl a s1 s0 k * f k) := by
    intro M₁ M₂ hle hz
    rw [Finset.range_eq_Ico, ← Finset.sum_Ico_consecutive _ (Nat.zero_le M₁) hle,
        ← Finset.range_eq_Ico]
    have h0 : (Finset.Ico M₁ M₂).sum (fun k => ovl a s1 s0 k * f k) = 0 :=
      Finset.sum_eq_zero (fun k hk => by
        rw [hz k (Finset.mem_Ico.mp hk).1, zero_mul])
    omega
  have hEN : ∀ k, E + 1 ≤ k → ovl a s1 s0 k = 0 := by
    intro k hk
    apply hzero_hi
    have h1 : (E + 1) * s0 ≤ k * s0 := mul_le_mul_right' hk s0
    omega
  have hNk : ∀ k, N ≤ k → ovl a s1 s0 k = 0 := by
    intro k hk
    apply hzero_hi
    have h1 : N * s0 ≤ k * s0 := mul_le_mul_right' hk s0
    omega
  have hstep1 : (Finset.range N).sum (fun k => ovl a s1 s0 k * f k)
      = (Finset.range (E + 1)).sum (fun k => ovl a s1 s0 k * f k) := by
    rcases le_total N (E + 1) with h | h
    · exact (hvanish N (E + 1) h hNk).symm
    · exact hvanish (E + 1) N h hEN
  have hstep2 : (Finset.range (E + 1)).sum (fun k => ovl a s1 s0 k * f k)
      = (Finset.Ico B (E + 1)).sum (fun k => ovl a s1 s0 k * f k) := by
    rw [Finset.range_eq_Ico, ← Finset.sum_Ico_consecutive _ (Nat.zero_le B)
        (by omega : B ≤ E + 1)]
    have h0 : (Finset.Ico 0 B).sum (fun k => ovl a s1 s0 k * f k) = 0 :=
      Finset.sum_eq_zero (fun k hk => by
        rw [hzero_lo k (Finset.mem_Ico.mp hk).2, zero_mul])
    omega
  rw [hstep1, hstep2]
  by_cases hEB : E = B
  · subst hEB
    rw [if_pos rfl, Nat.Ico_succ_singleton, Finset.sum_singleton]
    have hex : min r2 s1 = s1 := by omega
    have hovl : ovl a s1 s0 E = s1 := by
      unfold ovl
      omega
    rw [hex, if_neg (by omega : ¬ (s1 = 0)), hovl]
    simp
  · have hBE : B < E := by omega
    rw [if_neg hEB, List.map_append, List.sum_append, List.map_append, List.sum_append]
    have hex : min r2 s1 = r2 := by
      have h1 : (B + 1) * s0 ≤ E * s0 := mul_le_mul_right' (by omega) s0
      omega
    have hfirst : ((if min r2 s1 = 0 then ([] : List (ℕ × ℕ)) else [(E, min r2 s1)]).map
        (fun p => p.2 * f p.1)).sum = r2 * f E := by
      rw [hex]
      by_cases hr2 : r2 = 0
      · simp [hr2]
      · rw [if_neg hr2]
        simp
    have hmids : (((List.range (E - B - 1)).map (fun i => (E - 1 - i, s0))).map
        (fun p => p.2 * f p.1)).sum
        = (Finset.Ico (B + 1) E).sum (fun k => s0 * f k) := by
      rw [List.map_map]
      have h1 : ((List.range (E - B - 1)).map
          ((fun p : ℕ × ℕ => p.2 * f p.1) ∘ (fun i => (E - 1 - i, s0)))).sum
          = ((List.range (E - B - 1)).map (fun i => s0 * f (E - 1 - i))).sum := rfl
      rw [h1, list_range_map_sum]
      have h3 := Finset.sum_range_reflect (fun j => s0 * f (B + 1 + j)) (E - B - 1)
      have h4 : (Finset.range (E - B - 1)).sum (fun i => s0 * f (E - 1 - i))
          = (Finset.range (E - B - 1)).sum
              (fun i => s0 * f (B + 1 + (E - B - 1 - 1 - i))) := by
        refine Finset.sum_congr rfl (fun i hi => ?_)
        rw [Finset.mem_range] at hi
        have hx : E - 1 - i = B + 1 + (E - B - 1 - 1 - i) := by omega
        rw [hx]
      rw [h4, Finset.sum_Ico_eq_sum_range]
      have h5 : E - (B + 1) = E - B - 1 := by omega
      rw [h5]
      simpa using h3
    have hlast : (([(B, s0 - r)] : List (ℕ × ℕ)).map (fun p => p.2 * f p.1)).sum
        = (s0 - r) * f B := by simp
    rw [hfirst, hmids, hlast]
    have hovlB : ovl a s1 s0 B = s0 - r := by
      unfold ovl
      have h1 : (B + 1) * s0 ≤ E * s0 := mul_le_mul_right' (by omega) s0
      have h2 : (B + 1) * s0 = B * s0 + s0 := by ring
      omega
    have hovlE : ovl a s1 s0 E = r2 := by
      unfold ovl
      have h1 : (B + 1) * s0 ≤ E * s0 := mul_le_mul_right' (by omega) s0
      omega
    have hovlM : ∀ k ∈ Finset.Ico (B + 1) E, ovl a s1 s0 k * f k = s0 * f k := by
      intro k hk
      rw [Finset.mem_Ico] at hk
      have h1 : (B + 1) * s0 ≤ k * s0 := mul_le_mul_right' hk.1 s0
      have h2 : (k + 1) * s0 ≤ E * s0 := mul_le_mul_right' hk.2 s0
      have h3 : (k + 1) * s0 = k * s0 + s0 := by ring
      have h4 : ovl a s1 s0 k = s0 := by
        unfold ovl
        omega
      rw [h4]
    rw [Finset.sum_Ico_succ_top (by omega : B ≤ E), Finset.sum_eq_sum_Ico_succ_bot hBE,
        hovlB, hovlE, Finset.sum_congr rfl hovlM]
    ring

/-- The areas recorded along one axis sum to exactly `s1`. -/
lemma segList_snd_sum (a s1 s0 : ℕ) (hs0 : 0 < s0) (hs1 : 0 < s1) :
    ((segList a s1 s0).map Prod.snd).sum = s1 := by
  have hN : a + s1 ≤ (a + s1) * s0 := Nat.le_mul_of_pos_right _ hs0
  have h1 := segList_wsum a s1 s0 (a + s1) hs0 hs1 hN (fun _ => 1)
  simp only [mul_one] at h1
  have h2 : (Finset.range (a + s1)).sum (fun k => ovl a s1 s0 k) = s1 :=
    sum_ovl a s1 s0 (a + s1) hs0 hN
  exact h1.trans h2

/-- Shifting the footprint by whole source cells shifts the emitted cell
indices and keeps the weights. -/
lemma segList_shift (q r s1 s0 : ℕ) (hs0 : 0 < s0) (hr : r < s0) :
    segList (s0 * q + r) s1 s0 = (segList r s1 s0).map (fun p => (p.1 + q, p.2)) := by
  have h1 : (s0 * q + r) / s0 = q := by
    rw [Nat.mul_add_div hs0, Nat.div_eq_of_lt hr, add_zero]
  have h2 : (s0 * q + r + s1) / s0 = q + (r + s1) / s0 := by
    rw [add_assoc, Nat.mul_add_div hs0]
  have h3 : (s0 * q + r) % s0 = r := by
    rw [Nat.mul_add_mod, Nat.mod_eq_of_lt hr]
  have h4 : (s0 * q + r + s1) % s0 = (r + s1) % s0 := by
    rw [add_assoc, Nat.mul_add_mod]
  have h5 : r / s0 = 0 := Nat.div_eq_of_lt hr
  have h6 : r % s0 = r := Nat.mod_eq_of_lt hr
  simp only [segList, h1, h2, h3, h4, h5, h6]
  by_cases hc : (r + s1) / s0 = 0
  · rw [hc, add_zero, if_pos rfl, if_pos rfl]
    by_cases hex : min ((r + s1) % s0) s1 = 0
    · simp [hex]
    · simp [hex]
  · rw [if_neg (by omega : ¬ (q + (r + s1) / s0 = q)), if_neg hc,
        List.map_append, List.map_append]
    congr 1
    · congr 1
      · by_cases hex : min ((r + s1) % s0) s1 = 0
        · simp [hex]
        · rw [if_neg hex, if_neg hex]
          simp [add_comm]
      · rw [List.map_map]
        have hn : q + (r + s1) / s0 - q - 1 = (r + s1) / s0 - 0 - 1 := by omega
        rw [hn]
        refine List.map_congr_left (fun i hi => ?_)
        rw [List.mem_range] at hi
        have hij : q + (r + s1) / s0 - 1 - i = (r + s1) / s0 - 1 - i + q := by omega
        simp [hij]
    · simp

/-! ## §3 Pixel mapping table builder (crop.cc 561-673)

`PixMappingHelper::constructTable` iterates the destination sub-cells
`(x, y) ∈ [0, sx0) × [0, sy0)` of one period of the rational grid.  For
each sub-cell it computes the absolute intersection range, subtracts
`begIdx`, and emits one `AddPixel(pixAddr, area, x0, y0)` call per
intersecting source pixel, with
`pixAddr = ((y0 * W0) + x0) * C` in relative coordinates and
`area = columnSegment * rowMult`. -/

structure APCall where
  addr : ℕ
  area : ℕ
  crdX : ℕ
  crdY : ℕ
deriving DecidableEq

/-- The `AddPixel` calls emitted for the destination sub-cell `(xs, ys)`
by `PixMappingHelper::constructTable` (crop.cc 607-673). -/
def subCellCalls (W0 C sx0 sy0 sx1 sy1 xs ys : ℕ) : List APCall :=
  (segList (ys * sy1) sy1 sy0).flatMap fun p =>
    (segList (xs * sx1) sx1 sx0).map fun q =>
      { addr := ((p.1 - ys * sy1 / sy0) * W0 + (q.1 - xs * sx1 / sx0)) * C
        area := q.2 * p.2
        crdX := q.1 - xs * sx1 / sx0
        crdY := p.1 - ys * sy1 / sy0 }

/-- The `(pixAddr, pixArea)` pairs recorded in the area-weighted table
(`PixMapping` entries, crop.cc 403-408 and 576-585). -/
def subCellPairs (W0 C sx0 sy0 sx1 sy1 xs ys : ℕ) : List (ℕ × ℕ) :=
  (subCellCalls W0 C sx0 sy0 sx1 sy1 xs ys).map fun c => (c.addr, c.area)

lemma bind_area_sum (σY σX : List (ℕ × ℕ)) (mk : ℕ × ℕ → ℕ × ℕ → APCall)
    (harea : ∀ p q, (mk p q).area = q.2 * p.2) :
    ((σY.flatMap fun p => σX.map (mk p)).map APCall.area).sum
      = (σX.map Prod.snd).sum * (σY.map Prod.snd).sum := by
  induction σY with
  | nil => simp
  | cons p t ih =>
    rw [List.flatMap_cons, List.map_append, List.sum_append, ih]
    have h1 : ((σX.map (mk p)).map APCall.area).sum = (σX.map Prod.snd).sum * p.2 := by
      rw [List.map_map]
      have h2 : σX.map (APCall.area ∘ mk p) = σX.map (fun q => q.2 * p.2) :=
        List.map_congr_left (fun q _ => harea p q)
      rw [h2, List.sum_map_mul_right]
    rw [h1]
    simp [Nat.mul_add]

/-- Claim C3: for positive extents and every destination sub-cell of the
period, the integer contribution areas recorded by the area-weighted
table builder sum exactly to `stepDst.x * stepDst.y = sx1 * sy1`. -/
theorem areaConservation (H0 W0 H1 W1 C xs ys : ℕ)
    (hH0 : 0 < H0) (hW0 : 0 < W0) (hH1 : 0 < H1) (hW1 : 0 < W1)
    (hx : xs < lcm W0 W1 / W0) (hy : ys < lcm H0 H1 / H0) :
    ((subCellPairs W0 C (lcm W0 W1 / W0) (lcm H0 H1 / H0)
        (lcm W0 W1 / W1) (lcm H0 H1 / H1) xs ys).map Prod.snd).sum
      = (lcm W0 W1 / W1) * (lcm H0 H1 / H1) := by
  have hsx0 : 0 < lcm W0 W1 / W0 := step_pos W0 W1 hW0 hW1
  have hsy0 : 0 < lcm H0 H1 / H0 := step_pos H0 H1 hH0 hH1
  have hsx1 : 0 < lcm W0 W1 / W1 := step_pos_right W0 W1 hW0 hW1
  have hsy1 : 0 < lcm H0 H1 / H1 := step_pos_right H0 H1 hH0 hH1
  unfold subCellPairs
  have h1 : ((subCellCalls W0 C (lcm W0 W1 / W0) (lcm H0 H1 / H0)
      (lcm W0 W1 / W1) (lcm H0 H1 / H1) xs ys).map
        (fun c => (c.addr, c.area))).map Prod.snd
      = (subCellCalls W0 C (lcm W0 W1 / W0) (lcm H0 H1 / H0)
          (lcm W0 W1 / W1) (lcm H0 H1 / H1) xs ys).map APCall.area := by
    rw [List.map_map]
    rfl
  rw [h1]
  unfold subCellCalls
  rw [bind_area_sum _ _ _ (fun p q => rfl),
      segList_snd_sum _ _ _ hsx0 hsx1, segList_snd_sum _ _ _ hsy0 hsy1]

/-- Witness for C3 at `(H0,W0,H1,W1) = (4,4,2,2)`, `C = 1`, sub-cell `(0,0)`. -/
theorem areaConservation_witness :
    ((0 < 4 ∧ 0 < 4 ∧ 0 < 2 ∧ 0 < 2) ∧ 0 < lcm 4 2 / 4 ∧ 0 < lcm 4 2 / 4) ∧
      ((subCellPairs 4 1 (lcm 4 2 / 4) (lcm 4 2 / 4)
          (lcm 4 2 / 2) (lcm 4 2 / 2) 0 0).map Prod.snd).sum
        = (lcm 4 2 / 2) * (lcm 4 2 / 2) :=
  ⟨⟨⟨by decide, by decide, by decide, by decide⟩, by decide, by decide⟩,
    areaConservation 4 4 2 2 1 0 0 (by decide) (by decide) (by decide) (by decide)
      (by decide) (by decide)⟩

/-- Claim C10: with all four grid steps at least 1, every `AddPixel`
call recorded during area-weighted table construction carries a
strictly positive area (the `assert(area != 0)` at the head of
`PixMappingHelper::AddPixel` never fires). -/
theorem addPixel_area_pos (W0 C sx0 sy0 sx1 sy1 xs ys : ℕ)
    (hsx0 : 1 ≤ sx0) (hsy0 : 1 ≤ sy0) (hsx1 : 1 ≤ sx1) (hsy1 : 1 ≤ sy1)
    (c : APCall) (hc : c ∈ subCellCalls W0 C sx0 sy0 sx1 sy1 xs ys) :
    0 < c.area := by
  unfold subCellCalls at hc
  rw [List.mem_flatMap] at hc
  obtain ⟨p, hp, hc⟩ := hc
  rw [List.mem_map] at hc
  obtain ⟨q, hq, rfl⟩ := hc
  have h1 := segList_mem (ys * sy1) sy1 sy0 hsy0 hsy1 (k := p.1) (w := p.2) hp
  have h2 := segList_mem (xs * sx1) sx1 sx0 hsx0 hsx1 (k := q.1) (w := q.2) hq
  exact Nat.mul_pos h2.2.2 h1.2.2

/-- Witness for C10 at steps `(1,1,1,1)` and the single recorded pair. -/
theorem addPixel_area_pos_witness :
    ((1 ≤ 1 ∧ 1 ≤ 1 ∧ 1 ≤ 1 ∧ 1 ≤ 1) ∧
      APCall.mk 0 1 0 0 ∈ subCellCalls 1 1 1 1 1 1 0 0) ∧
    0 < (APCall.mk 0 1 0 0).area :=
  ⟨⟨⟨by decide, by decide, by decide, by decide⟩, by decide⟩,
    addPixel_area_pos 1 1 1 1 1 1 0 0 (by decide) (by decide) (by decide) (by decide)
      (APCall.mk 0 1 0 0) (by decide)⟩

/-! ## §4 Nearest-neighbor table entries (crop.cc 576-603)

On the `DALI_INTERP_NN` path `pPixMapping_` is `NULL`, so `AddPixel`
only keeps the address of the pixel with the smallest squared distance
to the sub-cell center (strict improvement: `closestDist_ > newDist`),
starting from `closestDist_ = FLT_MAX`.  The float distance is modelled
by an arbitrary function `dist` of the relative coordinates passed to
`AddPixel`; the initial `FLT_MAX` state is the `none` state of the
fold (the first call always improves on `FLT_MAX`). -/

def nnFold (dist : ℕ → ℕ → ℚ) : List APCall → Option (ℚ × ℕ) → Option (ℚ × ℕ)
  | [], st => st
  | c :: t, st =>
    match st with
    | none => nnFold dist t (some (dist c.crdX c.crdY, c.addr))
    | some (bd, ba) =>
      nnFold dist t
        (if bd > dist c.crdX c.crdY then some (dist c.crdX c.crdY, c.addr)
         else some (bd, ba))

/-- The address stored into the nearest-neighbor mapping slot of one
sub-cell, i.e. the final value of `*pMappingClosest_`. -/
def nnEntry (dist : ℕ → ℕ → ℚ) (calls : List APCall) : Option ℕ :=
  (nnFold dist calls none).map Prod.snd

lemma nnFold_mem (dist : ℕ → ℕ → ℚ) :
    ∀ (l : List APCall) (st : Option (ℚ × ℕ)) (d : ℚ) (a : ℕ),
      nnFold dist l st = some (d, a) →
      (∃ c ∈ l, c.addr = a) ∨ (∃ d0, st = some (d0, a)) := by
  intro l
  induction l with
  | nil =>
    intro st d a h
    right
    exact ⟨d, h⟩
  | cons c t ih =>
    intro st d a h
    cases st with
    | none =>
      simp only [nnFold] at h
      rcases ih _ _ _ h with ⟨c', hc', hca⟩ | ⟨d0, hst⟩
      · exact Or.inl ⟨c', List.mem_cons_of_mem c hc', hca⟩
      · simp only [Option.some.injEq, Prod.mk.injEq] at hst
        exact Or.inl ⟨c, List.mem_cons_self c t, hst.2⟩
    | some pr =>
      obtain ⟨bd, ba⟩ := pr
      simp only [nnFold] at h
      rcases ih _ _ _ h with ⟨c', hc', hca⟩ | ⟨d0, hst⟩
      · exact Or.inl ⟨c', List.mem_cons_of_mem c hc', hca⟩
      · split_ifs at hst with hcmp
        · simp only [Option.some.injEq, Prod.mk.injEq] at hst
          exact Or.inl ⟨c, List.mem_cons_self c t, hst.2⟩
        · simp only [Option.some.injEq, Prod.mk.injEq] at hst
          exact Or.inr ⟨bd, by rw [hst.2]⟩

/-- Every recorded relative address stays inside the source raster: the
intersecting rows/columns of a period sub-cell lie within
`[0, stepDst)` and `stepDst ≤ sourceExtent`. -/
lemma subCellCalls_addr_lt (H0 W0 H1 W1 C xs ys : ℕ)
    (hH0 : 0 < H0) (hW0 : 0 < W0) (hH1 : 0 < H1) (hW1 : 0 < W1) (hC : 0 < C)
    (hx : xs < lcm W0 W1 / W0) (hy : ys < lcm H0 H1 / H0)
    (c : APCall)
    (hc : c ∈ subCellCalls W0 C (lcm W0 W1 / W0) (lcm H0 H1 / H0)
        (lcm W0 W1 / W1) (lcm H0 H1 / H1) xs ys) :
    c.addr < H0 * W0 * C := by
  have hsx0 : 0 < lcm W0 W1 / W0 := step_pos W0 W1 hW0 hW1
  have hsy0 : 0 < lcm H0 H1 / H0 := step_pos H0 H1 hH0 hH1
  have hsx1 : 0 < lcm W0 W1 / W1 := step_pos_right W0 W1 hW0 hW1
  have hsy1 : 0 < lcm H0 H1 / H1 := step_pos_right H0 H1 hH0 hH1
  have hsy1H : lcm H0 H1 / H1 ≤ H0 := step_le H0 H1 hH0 hH1
  have hsx1W : lcm W0 W1 / W1 ≤ W0 := step_le W0 W1 hW0 hW1
  unfold subCellCalls at hc
  rw [List.mem_flatMap] at hc
  obtain ⟨p, hp, hc⟩ := hc
  rw [List.mem_map] at hc
  obtain ⟨q, hq, rfl⟩ := hc
  have h1 := segList_mem (ys * (lcm H0 H1 / H1)) (lcm H0 H1 / H1) (lcm H0 H1 / H0)
    hsy0 hsy1 (k := p.1) (w := p.2) hp
  have h2 := segList_mem (xs * (lcm W0 W1 / W1)) (lcm W0 W1 / W1) (lcm W0 W1 / W0)
    hsx0 hsx1 (k := q.1) (w := q.2) hq
  -- p.1 < stepDst.y: p.1 * sy0 < (ys+1) * sy1 ≤ sy0 * sy1
  have hp1 : p.1 < lcm H0 H1 / H1 := by
    by_contra hcon
    push_neg at hcon
    have h3 : (lcm H0 H1 / H1) * (lcm H0 H1 / H0) ≤ p.1 * (lcm H0 H1 / H0) :=
      mul_le_mul_right' hcon _
    have h4 : (ys + 1) * (lcm H0 H1 / H1) ≤ (lcm H0 H1 / H0) * (lcm H0 H1 / H1) :=
      mul_le_mul_right' (by omega) _
    have h5 : ys * (lcm H0 H1 / H1) + lcm H0 H1 / H1 = (ys + 1) * (lcm H0 H1 / H1) := by
      ring
    have h6 : (lcm H0 H1 / H0) * (lcm H0 H1 / H1) = (lcm H0 H1 / H1) * (lcm H0 H1 / H0) := by
      ring
    omega
  have hq1 : q.1 < lcm W0 W1 / W1 := by
    by_contra hcon
    push_neg at hcon
    have h3 : (lcm W0 W1 / W1) * (lcm W0 W1 / W0) ≤ q.1 * (lcm W0 W1 / W0) :=
      mul_le_mul_right' hcon _
    have h4 : (xs + 1) * (lcm W0 W1 / W1) ≤ (lcm W0 W1 / W0) * (lcm W0 W1 / W1) :=
      mul_le_mul_right' (by omega) _
    have h5 : xs * (lcm W0 W1 / W1) + lcm W0 W1 / W1 = (xs + 1) * (lcm W0 W1 / W1) := by
      ring
    have h6 : (lcm W0 W1 / W0) * (lcm W0 W1 / W1) = (lcm W0 W1 / W1) * (lcm W0 W1 / W0) := by
      ring
    omega
  show ((p.1 - ys * (lcm H0 H1 / H1) / (lcm H0 H1 / H0)) * W0 +
        (q.1 - xs * (lcm W0 W1 / W1) / (lcm W0 W1 / W0))) * C < H0 * W0 * C
  have hsubY : p.1 - ys * (lcm H0 H1 / H1) / (lcm H0 H1 / H0) ≤ p.1 := Nat.sub_le _ _
  have hsubX : q.1 - xs * (lcm W0 W1 / W1) / (lcm W0 W1 / W0) ≤ q.1 := Nat.sub_le _ _
  have hrelY : p.1 - ys * (lcm H0 H1 / H1) / (lcm H0 H1 / H0) ≤ H0 - 1 := by omega
  have hrelX : q.1 - xs * (lcm W0 W1 / W1) / (lcm W0 W1 / W0) ≤ W0 - 1 := by omega
  have hS : (p.1 - ys * (lcm H0 H1 / H1) / (lcm H0 H1 / H0)) * W0 +
      (q.1 - xs * (lcm W0 W1 / W1) / (lcm W0 W1 / W0)) < H0 * W0 := by
    have h5 : (p.1 - ys * (lcm H0 H1 / H1) / (lcm H0 H1 / H0)) * W0 ≤ (H0 - 1) * W0 :=
      mul_le_mul_right' hrelY W0
    have h6 : (H0 - 1) * W0 + W0 = (H0 - 1 + 1) * W0 := by ring
    have h7 : H0 - 1 + 1 = H0 := by omega
    rw [h7] at h6
    omega
  calc ((p.1 - ys * (lcm H0 H1 / H1) / (lcm H0 H1 / H0)) * W0 +
        (q.1 - xs * (lcm W0 W1 / W1) / (lcm W0 W1 / W0))) * C
      < (H0 * W0) * C := mul_lt_mul_of_pos_right hS hC
    _ = H0 * W0 * C := rfl

/-- Claim C9: for positive extents, channel count 1 or 3 and any
sub-cell of the period, the address stored into the nearest-neighbor
mapping table lies in `[0, H0*W0*C)`. -/
theorem nnTable_entry_valid (H0 W0 H1 W1 C xs ys a : ℕ) (dist : ℕ → ℕ → ℚ)
    (hH0 : 0 < H0) (hW0 : 0 < W0) (hH1 : 0 < H1) (hW1 : 0 < W1)
    (hC : C = 1 ∨ C = 3)
    (hx : xs < lcm W0 W1 / W0) (hy : ys < lcm H0 H1 / H0)
    (h : nnEntry dist (subCellCalls W0 C (lcm W0 W1 / W0) (lcm H0 H1 / H0)
          (lcm W0 W1 / W1) (lcm H0 H1 / H1) xs ys) = some a) :
    a < H0 * W0 * C := by
  have hCpos : 0 < C := by rcases hC with rfl | rfl <;> decide
  unfold nnEntry at h
  cases hfold : nnFold dist (subCellCalls W0 C (lcm W0 W1 / W0) (lcm H0 H1 / H0)
      (lcm W0 W1 / W1) (lcm H0 H1 / H1) xs ys) none with
  | none => rw [hfold] at h; simp at h
  | some pr =>
    rw [hfold] at h
    obtain ⟨d, a'⟩ := pr
    simp only [Option.map_some', Option.some.injEq] at h
    rcases nnFold_mem dist _ _ _ _ hfold with ⟨c, hc, hca⟩ | ⟨d0, hst⟩
    · have hb := subCellCalls_addr_lt H0 W0 H1 W1 C xs ys hH0 hW0 hH1 hW1 hCpos hx hy c hc
      omega
    · simp at hst

/-- Witness for C9: `(H0,W0,H1,W1) = (2,2,1,1)`, `C = 1`, sub-cell
`(0, 0)`, constant distance function; the stored entry is address 3. -/
theorem nnTable_entry_valid_witness :
    ((0 < 2 ∧ 0 < 2 ∧ 0 < 1 ∧ 0 < 1) ∧ (1 = 1 ∨ 1 = 3) ∧
      (0 < lcm 2 1 / 2 ∧ 0 < lcm 2 1 / 2) ∧
      nnEntry (fun _ _ => (0 : ℚ)) (subCellCalls 2 1 (lcm 2 1 / 2) (lcm 2 1 / 2)
        (lcm 2 1 / 1) (lcm 2 1 / 1) 0 0) = some 3) ∧
    3 < 2 * 2 * 1 :=
  ⟨⟨⟨by decide, by decide, by decide, by decide⟩, by decide, ⟨by decide, by decide⟩,
    by decide⟩,
   nnTable_entry_valid 2 2 1 1 1 0 0 3 (fun _ _ => (0 : ℚ)) (by decide) (by decide)
     (by decide) (by decide) (by decide) (by decide) (by decide) (by decide)⟩

/-! ## §5 Resampling kernel, fallback (table-free) path (crop.cc 736-852)

For each output pixel `(x, y)` the fallback branch of `ResizeFunc`
computes `nX = (x+cropX)*sx1`, `nY = (y+cropY)*sy1`, accumulates
`weight * value` over the intersection loops (the same loops as the
table builder, in absolute source coordinates, weight
`rowMult * columnSegment`), and writes
`(pixColor + (area >> 1)) / area` with `area = sx1 * sy1`
(`setPixelColor`, crop.cc 726-734).  The per-channel accumulation for
channel `c < C` reads `input` at `((y0 * W0) + x0) * C + c`. -/

/-- `setPixelColor` (crop.cc 726-734): round-to-nearest integer division
`(pixColor + (area >> 1)) / area`. -/
def roundDiv (v area : ℕ) : ℕ := (v + area / 2) / area

/-- The integer accumulation of the fallback loops of `ResizeFunc` for
one output pixel and one channel (crop.cc 806-851), with the row weight
`rowMult` factored out of each row. -/
def pixAcc (W0 C : ℕ) (input : ℕ → ℕ) (sx0 sy0 sx1 sy1 nX nY c : ℕ) : ℕ :=
  ((segList nY sy1 sy0).map fun p =>
    p.2 * ((segList nX sx1 sx0).map fun q =>
      q.2 * input ((p.1 * W0 + q.1) * C + c)).sum).sum

/-- Value of channel `c` of the output pixel the fallback path computes
for loop coordinates `(x, y)`. -/
def fallbackPixel (W0 C sx0 sy0 sx1 sy1 cropX cropY : ℕ) (input : ℕ → ℕ)
    (x y c : ℕ) : ℕ :=
  roundDiv
    (pixAcc W0 C input sx0 sy0 sx1 sy1 ((x + cropX) * sx1) ((y + cropY) * sy1) c)
    (sx1 * sy1)

/-- Output pointer arithmetic of `ResizeFunc` (crop.cc 755-767) for the
host instantiation `startW = startH = 0`, `stepW = stepH = 1`,
`imgIdx = 0`: `offset = W*C`; initially `out = img_out - shift` with
`shift = offset`; if `MirrorFlag.y`, `out += (H-1)*offset - 2*(shift *= -1)`;
if `MirrorFlag.x`, `out += offset + (outStep = -C)` (the assignment
expression contributes `-C` to the sum); each row then does
`out += shift` and pixel `x` channel `ch` is written at
`out[x*outStep + ch]`. -/
def outAddr (mx my : Bool) (W H C x y ch : ℕ) : ℤ :=
  let offset : ℤ := (W : ℤ) * (C : ℤ)
  let outStep : ℤ := cond mx (-(C : ℤ)) (C : ℤ)
  let shift : ℤ := cond my (-offset) offset
  let start : ℤ :=
    -offset + (cond my (((H : ℤ) - 1) * offset + 2 * offset) 0) +
      (cond mx (offset - (C : ℤ)) 0)
  start + ((y : ℤ) + 1) * shift + (x : ℤ) * outStep + (ch : ℤ)

/-- Flat index of pixel `(y, x)` channel `ch` in a `H × W × C` raster. -/
def flatIdx (W C y x ch : ℕ) : ℕ := (y * W + x) * C + ch

/-- The mirror address arithmetic writes the pixel computed for loop
coordinates `(x, y)` at the raster position with mirrored coordinates. -/
lemma outAddr_eq (mx my : Bool) (W H C x y ch : ℕ) (hx : x < W) (hy : y < H) :
    outAddr mx my W H C x y ch
      = ((flatIdx W C (cond my (H - 1 - y) y) (cond mx (W - 1 - x) x) ch : ℕ) : ℤ) := by
  have h1 : ((W - 1 - x : ℕ) : ℤ) = (W : ℤ) - 1 - (x : ℤ) := by omega
  have h2 : ((H - 1 - y : ℕ) : ℤ) = (H : ℤ) - 1 - (y : ℤ) := by omega
  cases mx <;> cases my <;>
    simp only [outAddr, flatIdx, cond] <;>
    push_cast [h1, h2] <;>
    ring

/-- The output raster produced by the fallback path of `ResizeFunc`: by
`outAddr_eq`, the value at logical position `(y, x, ch)` is the pixel
the kernel computes for the mirrored loop coordinates. -/
def resizeOut (mx my : Bool) (W0 C sx0 sy0 sx1 sy1 cropX cropY W H : ℕ)
    (input : ℕ → ℕ) (y x ch : ℕ) : ℕ :=
  fallbackPixel W0 C sx0 sy0 sx1 sy1 cropX cropY input
    (cond mx (W - 1 - x) x) (cond my (H - 1 - y) y) ch

/-- Reflection of a `H × W0 × C` raster on the X axis. -/
def mirrorRasterX (W0 C : ℕ) (input : ℕ → ℕ) : ℕ → ℕ :=
  fun a => input (a / (W0 * C) * (W0 * C) + (W0 - 1 - a / C % W0) * C + a % C)

lemma segList_one_one (a : ℕ) : segList a 1 1 = [(a, 1)] := by
  simp [segList, Nat.div_one, Nat.mod_one]

/-- Claim C5: resizing `(H, W) → (H, W)` with the area-weighted linear
path, zero crop offset and no mirroring reproduces the input raster
exactly, for channel count 1 or 3. -/
theorem identityResize (H W C x y c : ℕ) (input : ℕ → ℕ)
    (hH : 0 < H) (hW : 0 < W) (hC : C = 1 ∨ C = 3)
    (hx : x < W) (hy : y < H) (hc : c < C) :
    resizeOut false false W C (lcm W W / W) (lcm H H / H) (lcm W W / W) (lcm H H / H)
      0 0 W H input y x c = input (flatIdx W C y x c) := by
  have hw1 : lcm W W / W = 1 := by
    rw [lcm_eq_lcm W W hW, Nat.lcm_self, Nat.div_self hW]
  have hh1 : lcm H H / H = 1 := by
    rw [lcm_eq_lcm H H hH, Nat.lcm_self, Nat.div_self hH]
  rw [hw1, hh1]
  unfold resizeOut fallbackPixel pixAcc roundDiv flatIdx
  simp [segList_one_one]

/-- Witness for C5 at `(H, W) = (2, 3)`, `C = 1`, pixel `(1, 2)`. -/
theorem identityResize_witness :
    ((0 < 2 ∧ 0 < 3 ∧ (1 = 1 ∨ 1 = 3)) ∧ (2 < 3 ∧ 1 < 2 ∧ 0 < 1)) ∧
      resizeOut false false 3 1 (lcm 3 3 / 3) (lcm 2 2 / 2) (lcm 3 3 / 3) (lcm 2 2 / 2)
        0 0 3 2 (fun a => a * a + 1) 1 2 0 = (fun a => a * a + 1) (flatIdx 3 1 1 2 0) :=
  ⟨⟨⟨by decide, by decide, by decide⟩, ⟨by decide, by decide, by decide⟩⟩,
    identityResize 2 3 1 2 1 0 (fun a => a * a + 1) (by decide) (by decide) (by decide)
      (by decide) (by decide) (by decide)⟩

/-! ## §6 Tabulated linear path (crop.cc 675-713, 786-805)

`ResizeMappingTable::constructTable` builds, for every sub-cell
`(xs, ys)` of the period, the pair list of §3 and stores it at slot
`((ys*sy1) % sy0) * sx0 + (xs*sx1) % sx0` (the `UpdateMapping` shift,
crop.cc 633).  The kernel's tabulated branch (crop.cc 786-805) looks up
slot `(nY % sy0) * sx0 + nX % sx0` and accumulates
`pixArea * input(pBase + pixAddr)` with
`pBase = (nY/sy0 * W0 + nX/sx0) * C`. -/

/-- Pair list of a sub-cell expressed through the residues of its scaled
coordinates (`segList` arguments reduced mod the source step). -/
def cellPairs (W0 C sx0 sy0 sx1 sy1 rx ry : ℕ) : List (ℕ × ℕ) :=
  (segList ry sy1 sy0).flatMap fun p =>
    (segList rx sx1 sx0).map fun q => ((p.1 * W0 + q.1) * C, q.2 * p.2)

/-- The table slot written for sub-cell `(xs, ys)`: the `UpdateMapping`
shift `((y*sy1) % sy0) * sx0 + (x*sx1) % sx0` of crop.cc 633. -/
def slotOf (sx0 sy0 sx1 sy1 xs ys : ℕ) : ℕ :=
  ys * sy1 % sy0 * sx0 + xs * sx1 % sx0

/-- The full table built by iterating `constructTable` over all
sub-cells of the period (slot ↦ recorded pair list). -/
def buildTable (W0 C sx0 sy0 sx1 sy1 : ℕ) : ℕ → List (ℕ × ℕ) :=
  ((List.range sy0).flatMap fun ys => (List.range sx0).map fun xs => (ys, xs)).foldl
    (fun t pr => fun s =>
      if s = slotOf sx0 sy0 sx1 sy1 pr.2 pr.1 then
        subCellPairs W0 C sx0 sy0 sx1 sy1 pr.2 pr.1
      else t s)
    (fun _ => [])

/-- Channel value computed by the tabulated branch of `ResizeFunc`
(crop.cc 786-805). -/
def tabPixel (W0 C sx0 sy0 sx1 sy1 cropX cropY : ℕ) (table : ℕ → List (ℕ × ℕ))
    (input : ℕ → ℕ) (x y c : ℕ) : ℕ :=
  roundDiv
    (((table ((y + cropY) * sy1 % sy0 * sx0 + (x + cropX) * sx1 % sx0)).map
        (fun pr => pr.2 *
          input (((y + cropY) * sy1 / sy0 * W0 + (x + cropX) * sx1 / sx0) * C
            + pr.1 + c))).sum)
    (sx1 * sy1)

/-- Output raster of the tabulated path (same mirror address arithmetic
as `resizeOut`). -/
def resizeOutTab (mx my : Bool) (W0 C sx0 sy0 sx1 sy1 cropX cropY W H : ℕ)
    (table : ℕ → List (ℕ × ℕ)) (input : ℕ → ℕ) (y x ch : ℕ) : ℕ :=
  tabPixel W0 C sx0 sy0 sx1 sy1 cropX cropY table input
    (cond mx (W - 1 - x) x) (cond my (H - 1 - y) y) ch

lemma segList_decomp (a s1 s0 : ℕ) (hs0 : 0 < s0) :
    segList a s1 s0 = (segList (a % s0) s1 s0).map (fun p => (p.1 + a / s0, p.2)) := by
  conv_lhs => rw [← Nat.div_add_mod a s0]
  exact segList_shift (a / s0) (a % s0) s1 s0 hs0 (Nat.mod_lt _ hs0)

lemma subCellPairs_residue (W0 C sx0 sy0 sx1 sy1 xs ys : ℕ)
    (hsx0 : 0 < sx0) (hsy0 : 0 < sy0) :
    subCellPairs W0 C sx0 sy0 sx1 sy1 xs ys
      = cellPairs W0 C sx0 sy0 sx1 sy1 (xs * sx1 % sx0) (ys * sy1 % sy0) := by
  unfold subCellPairs subCellCalls cellPairs
  rw [segList_decomp (ys * sy1) sy1 sy0 hsy0, segList_decomp (xs * sx1) sx1 sx0 hsx0,
    List.flatMap_map, List.map_flatMap]
  congr 1
  funext p
  rw [List.map_map, List.map_map]
  congr 1
  funext q
  simp [Nat.add_sub_cancel]

lemma foldl_write_notmem {β : Type} (L : List β) (slot : β → ℕ)
    (w : β → List (ℕ × ℕ)) (t0 : ℕ → List (ℕ × ℕ)) (s : ℕ)
    (h : ∀ p ∈ L, slot p ≠ s) :
    (L.foldl (fun t p => fun s' => if s' = slot p then w p else t s') t0) s = t0 s := by
  induction L generalizing t0 with
  | nil => rfl
  | cons p t ih =>
    simp only [List.foldl_cons]
    rw [ih _ (fun p' hp' => h p' (List.mem_cons_of_mem _ hp'))]
    exact if_neg (fun he => h p (List.mem_cons_self p t) he.symm)

lemma foldl_write_mem {β : Type} (L : List β) (slot : β → ℕ)
    (w : β → List (ℕ × ℕ)) (content : ℕ → List (ℕ × ℕ))
    (hcont : ∀ p ∈ L, w p = content (slot p))
    (t0 : ℕ → List (ℕ × ℕ)) (s : ℕ) (hs : ∃ p ∈ L, slot p = s) :
    (L.foldl (fun t p => fun s' => if s' = slot p then w p else t s') t0) s = content s := by
  induction L generalizing t0 with
  | nil => simp at hs
  | cons p t ih =>
    simp only [List.foldl_cons]
    by_cases hex : ∃ p' ∈ t, slot p' = s
    · exact ih (fun p' hp' => hcont p' (List.mem_cons_of_mem _ hp')) _ hex
    · push_neg at hex
      have hps : slot p = s := by
        rcases hs with ⟨p', hp', hslot⟩
        rcases List.mem_cons.mp hp' with h' | hmem
        · rw [← h']; exact hslot
        · exact absurd hslot (hex p' hmem)
      rw [foldl_write_notmem t slot w _ s (fun p' hp' => hex p' hp'),
        if_pos hps.symm, hcont p (List.mem_cons_self p t), hps]

/-- Because `gcd(sx0, sx1) = 1`, every residue class mod `sx0` is hit by
some sub-cell coordinate, so every slot the kernel reads was written. -/
lemma residue_surj (s0 s1 : ℕ) (hs0 : 0 < s0) (hcop : Nat.Coprime s0 s1) (r : ℕ)
    (hr : r < s0) : ∃ t, t < s0 ∧ t * s1 % s0 = r := by
  have hinj : Function.Injective
      (fun t : Fin s0 => (⟨t.1 * s1 % s0, Nat.mod_lt _ hs0⟩ : Fin s0)) := by
    intro u v huv
    have h1 : u.1 * s1 % s0 = v.1 * s1 % s0 := congrArg Fin.val huv
    have h2 : u.1 * s1 ≡ v.1 * s1 [MOD s0] := h1
    have h3 : u.1 ≡ v.1 [MOD s0] := Nat.ModEq.cancel_right_of_coprime hcop h2
    have h4 : u.1 % s0 = v.1 % s0 := h3
    rw [Nat.mod_eq_of_lt u.2, Nat.mod_eq_of_lt v.2] at h4
    exact Fin.ext h4
  obtain ⟨t, ht⟩ := Finite.surjective_of_injective hinj ⟨r, hr⟩
  exact ⟨t.1, t.2, congrArg Fin.val ht⟩

/-- The two steps of one axis are coprime: `sx0 = W1/g`, `sx1 = W0/g`. -/
lemma steps_coprime (d0 d1 : ℕ) (h0 : 0 < d0) (h1 : 0 < d1) :
    Nat.Coprime (lcm d0 d1 / d0) (lcm d0 d1 / d1) := by
  have hg : 0 < Nat.gcd d0 d1 := Nat.gcd_pos_of_pos_left d1 h0
  have h2 : lcm d0 d1 / d0 = d1 / Nat.gcd d0 d1 := by
    rw [lcm_eq_lcm d0 d1 h0, Nat.lcm,
      Nat.mul_div_assoc d0 (Nat.gcd_dvd_right d0 d1)]
    exact Nat.mul_div_cancel_left _ h0
  have h3 : lcm d0 d1 / d1 = d0 / Nat.gcd d0 d1 := by
    rw [lcm_eq_lcm d0 d1 h0, Nat.lcm, mul_comm d0 d1,
      Nat.mul_div_assoc d1 (Nat.gcd_dvd_left d0 d1)]
    exact Nat.mul_div_cancel_left _ h1
  rw [h2, h3]
  exact (Nat.coprime_div_gcd_div_gcd hg).symm

lemma slot_mod (sx0 sy0 sx1 sy1 xs ys : ℕ) (hsx0 : 0 < sx0) :
    slotOf sx0 sy0 sx1 sy1 xs ys % sx0 = xs * sx1 % sx0 ∧
    slotOf sx0 sy0 sx1 sy1 xs ys / sx0 = ys * sy1 % sy0 := by
  unfold slotOf
  constructor
  · rw [show ys * sy1 % sy0 * sx0 + xs * sx1 % sx0
        = sx0 * (ys * sy1 % sy0) + xs * sx1 % sx0 from by ring,
      Nat.mul_add_mod, Nat.mod_eq_of_lt (Nat.mod_lt _ hsx0)]
  · rw [show ys * sy1 % sy0 * sx0 + xs * sx1 % sx0
        = sx0 * (ys * sy1 % sy0) + xs * sx1 % sx0 from by ring,
      Nat.mul_add_div hsx0, Nat.div_eq_of_lt (Nat.mod_lt _ hsx0), add_zero]

/-- The table entry the kernel reads is the pair list of the (unique)
sub-cell with matching residues. -/
lemma buildTable_lookup (W0 C sx0 sy0 sx1 sy1 rx ry : ℕ)
    (hsx0 : 0 < sx0) (hsy0 : 0 < sy0)
    (hcx : Nat.Coprime sx0 sx1) (hcy : Nat.Coprime sy0 sy1)
    (hrx : rx < sx0) (hry : ry < sy0) :
    buildTable W0 C sx0 sy0 sx1 sy1 (ry * sx0 + rx)
      = cellPairs W0 C sx0 sy0 sx1 sy1 rx ry := by
  obtain ⟨tx, htx, htxe⟩ := residue_surj sx0 sx1 hsx0 hcx rx hrx
  obtain ⟨ty, hty, htye⟩ := residue_surj sy0 sy1 hsy0 hcy ry hry
  have hcont : ∀ pr ∈ ((List.range sy0).flatMap fun ys =>
      (List.range sx0).map fun xs => (ys, xs)),
      subCellPairs W0 C sx0 sy0 sx1 sy1 pr.2 pr.1
        = cellPairs W0 C sx0 sy0 sx1 sy1
            (slotOf sx0 sy0 sx1 sy1 pr.2 pr.1 % sx0)
            (slotOf sx0 sy0 sx1 sy1 pr.2 pr.1 / sx0) := by
    intro pr _
    have h1 := slot_mod sx0 sy0 sx1 sy1 pr.2 pr.1 hsx0
    rw [h1.1, h1.2, subCellPairs_residue _ _ _ _ _ _ _ _ hsx0 hsy0]
  have hs : ∃ pr ∈ ((List.range sy0).flatMap fun ys =>
      (List.range sx0).map fun xs => (ys, xs)),
      slotOf sx0 sy0 sx1 sy1 pr.2 pr.1 = ry * sx0 + rx := by
    refine ⟨(ty, tx), ?_, ?_⟩
    · rw [List.mem_flatMap]
      exact ⟨ty, List.mem_range.mpr hty, List.mem_map.mpr ⟨tx, List.mem_range.mpr htx, rfl⟩⟩
    · show slotOf sx0 sy0 sx1 sy1 tx ty = ry * sx0 + rx
      unfold slotOf
      rw [htxe, htye]
  have hmain := foldl_write_mem
    ((List.range sy0).flatMap fun ys => (List.range sx0).map fun xs => (ys, xs))
    (fun pr => slotOf sx0 sy0 sx1 sy1 pr.2 pr.1)
    (fun pr => subCellPairs W0 C sx0 sy0 sx1 sy1 pr.2 pr.1)
    (fun s => cellPairs W0 C sx0 sy0 sx1 sy1 (s % sx0) (s / sx0))
    hcont (fun _ => []) (ry * sx0 + rx) hs
  have hmod : (ry * sx0 + rx) % sx0 = rx := by
    rw [show ry * sx0 + rx = sx0 * ry + rx from by ring, Nat.mul_add_mod,
      Nat.mod_eq_of_lt hrx]
  have hdiv : (ry * sx0 + rx) / sx0 = ry := by
    rw [show ry * sx0 + rx = sx0 * ry + rx from by ring, Nat.mul_add_div hsx0,
      Nat.div_eq_of_lt hrx, add_zero]
  calc buildTable W0 C sx0 sy0 sx1 sy1 (ry * sx0 + rx)
      = cellPairs W0 C sx0 sy0 sx1 sy1 ((ry * sx0 + rx) % sx0) ((ry * sx0 + rx) / sx0) :=
        hmain
    _ = cellPairs W0 C sx0 sy0 sx1 sy1 rx ry := by rw [hmod, hdiv]

lemma cellPairs_wsum (σY σX : List (ℕ × ℕ)) (addr : ℕ → ℕ → ℕ) (G : ℕ → ℕ) :
    ((σY.flatMap fun p => σX.map fun q => (addr p.1 q.1, q.2 * p.2)).map
        (fun pr => pr.2 * G pr.1)).sum
      = (σY.map fun p => p.2 * (σX.map fun q => q.2 * G (addr p.1 q.1)).sum).sum := by
  induction σY with
  | nil => simp
  | cons p t ih =>
    rw [List.flatMap_cons, List.map_append, List.sum_append, ih, List.map_cons,
      List.sum_cons]
    congr 1
    rw [List.map_map]
    have h1 : σX.map ((fun pr : ℕ × ℕ => pr.2 * G pr.1) ∘ fun q => (addr p.1 q.1, q.2 * p.2))
        = σX.map (fun q => p.2 * (q.2 * G (addr p.1 q.1))) := by
      refine List.map_congr_left (fun q _ => ?_)
      simp only [Function.comp]
      ring
    rw [h1, List.sum_map_mul_left]

/-- The fallback accumulation equals the accumulation over the residue
pair list plus the base address (the per-pixel arithmetic only depends
on `nX, nY` through quotient and residue). -/
lemma fallbackPixel_eq_cell (W0 C sx0 sy0 sx1 sy1 cropX cropY : ℕ) (input : ℕ → ℕ)
    (x y c : ℕ) (hsx0 : 0 < sx0) (hsy0 : 0 < sy0) :
    fallbackPixel W0 C sx0 sy0 sx1 sy1 cropX cropY input x y c
      = roundDiv
          (((cellPairs W0 C sx0 sy0 sx1 sy1 ((x + cropX) * sx1 % sx0)
              ((y + cropY) * sy1 % sy0)).map
            (fun pr => pr.2 *
              input (((y + cropY) * sy1 / sy0 * W0 + (x + cropX) * sx1 / sx0) * C
                + pr.1 + c))).sum)
          (sx1 * sy1) := by
  unfold fallbackPixel pixAcc
  congr 1
  unfold cellPairs
  rw [cellPairs_wsum _ _ (fun a b => (a * W0 + b) * C)
      (fun t => input (((y + cropY) * sy1 / sy0 * W0 + (x + cropX) * sx1 / sx0) * C
        + t + c))]
  rw [segList_decomp ((y + cropY) * sy1) sy1 sy0 hsy0,
    segList_decomp ((x + cropX) * sx1) sx1 sx0 hsx0, List.map_map]
  refine congrArg List.sum (List.map_congr_left (fun p _ => ?_))
  simp only [Function.comp]
  congr 1
  rw [List.map_map]
  refine congrArg List.sum (List.map_congr_left (fun q _ => ?_))
  simp only [Function.comp]
  congr 1
  congr 1
  ring

/-- Claim C6: with the same sizes, channel count, crop offset and mirror
flags, the tabulated linear path (precomputed `ResizeMapping`/`PixMapping`)
produces exactly the bytes of the inline fallback path, for every input
raster. -/
theorem tabulated_eq_fallback (H0 W0 H1 W1 C cropX cropY : ℕ) (mx my : Bool)
    (input : ℕ → ℕ) (y x ch : ℕ)
    (hH0 : 0 < H0) (hW0 : 0 < W0) (hH1 : 0 < H1) (hW1 : 0 < W1) :
    resizeOutTab mx my W0 C (lcm W0 W1 / W0) (lcm H0 H1 / H0) (lcm W0 W1 / W1)
        (lcm H0 H1 / H1) cropX cropY W1 H1
        (buildTable W0 C (lcm W0 W1 / W0) (lcm H0 H1 / H0) (lcm W0 W1 / W1)
          (lcm H0 H1 / H1)) input y x ch
      = resizeOut mx my W0 C (lcm W0 W1 / W0) (lcm H0 H1 / H0) (lcm W0 W1 / W1)
        (lcm H0 H1 / H1) cropX cropY W1 H1 input y x ch := by
  have hsx0 := step_pos W0 W1 hW0 hW1
  have hsy0 := step_pos H0 H1 hH0 hH1
  have hcx := steps_coprime W0 W1 hW0 hW1
  have hcy := steps_coprime H0 H1 hH0 hH1
  unfold resizeOutTab resizeOut
  generalize cond mx (W1 - 1 - x) x = x'
  generalize cond my (H1 - 1 - y) y = y'
  unfold tabPixel
  rw [buildTable_lookup _ _ _ _ _ _ _ _ hsx0 hsy0 hcx hcy
      (Nat.mod_lt _ hsx0) (Nat.mod_lt _ hsy0),
    fallbackPixel_eq_cell _ _ _ _ _ _ _ _ _ _ _ _ hsx0 hsy0]

/-- Witness for C6 at `(H0,W0,H1,W1) = (2,2,3,3)`, `C = 1`, zero crop,
no mirroring, pixel `(0,0,0)`, input raster `a ↦ a + 1`. -/
theorem tabulated_eq_fallback_witness :
    (0 < 2 ∧ 0 < 2 ∧ 0 < 3 ∧ 0 < 3) ∧
      resizeOutTab false false 2 1 (lcm 2 3 / 2) (lcm 2 3 / 2) (lcm 2 3 / 3)
        (lcm 2 3 / 3) 0 0 3 3
        (buildTable 2 1 (lcm 2 3 / 2) (lcm 2 3 / 2) (lcm 2 3 / 3) (lcm 2 3 / 3))
        (fun a => a + 1) 0 0 0
      = resizeOut false false 2 1 (lcm 2 3 / 2) (lcm 2 3 / 2) (lcm 2 3 / 3)
        (lcm 2 3 / 3) 0 0 3 3 (fun a => a + 1) 0 0 0 :=
  ⟨⟨by decide, by decide, by decide, by decide⟩,
    tabulated_eq_fallback 2 2 3 3 1 0 0 false false (fun a => a + 1) 0 0 0
      (by decide) (by decide) (by decide) (by decide)⟩

/-! ## §7 Mirror commutation -/

/-- Closed form of the fallback accumulation: an `ovl`-weighted double
sum over all source pixels. -/
lemma pixAcc_closed (W0 H0 C sx0 sy0 sx1 sy1 nX nY c : ℕ) (input : ℕ → ℕ)
    (hsx0 : 0 < sx0) (hsy0 : 0 < sy0) (hsx1 : 0 < sx1) (hsy1 : 0 < sy1)
    (hX : nX + sx1 ≤ W0 * sx0) (hY : nY + sy1 ≤ H0 * sy0) :
    pixAcc W0 C input sx0 sy0 sx1 sy1 nX nY c
      = (Finset.range H0).sum (fun l => ovl nY sy1 sy0 l *
          (Finset.range W0).sum
            (fun k => ovl nX sx1 sx0 k * input ((l * W0 + k) * C + c))) := by
  unfold pixAcc
  calc ((segList nY sy1 sy0).map fun p =>
        p.2 * ((segList nX sx1 sx0).map fun q =>
          q.2 * input ((p.1 * W0 + q.1) * C + c)).sum).sum
      = (Finset.range H0).sum (fun l => ovl nY sy1 sy0 l *
          ((segList nX sx1 sx0).map fun q =>
            q.2 * input ((l * W0 + q.1) * C + c)).sum) :=
        segList_wsum nY sy1 sy0 H0 hsy0 hsy1 hY
          (fun l => ((segList nX sx1 sx0).map fun q =>
            q.2 * input ((l * W0 + q.1) * C + c)).sum)
    _ = (Finset.range H0).sum (fun l => ovl nY sy1 sy0 l *
          (Finset.range W0).sum
            (fun k => ovl nX sx1 sx0 k * input ((l * W0 + k) * C + c))) := by
        refine Finset.sum_congr rfl (fun l _ => ?_)
        congr 1
        exact segList_wsum nX sx1 sx0 W0 hsx0 hsx1 hX
          (fun k => input ((l * W0 + k) * C + c))

/-- Mirror symmetry of the overlap lengths: the footprint mirrored in
the scaled axis overlaps the mirrored source cell by the same amount. -/
lemma ovl_reflect (a a' s1 s0 N k : ℕ) (hk : k < N) (hsum : a + a' + s1 = N * s0) :
    ovl a' s1 s0 (N - 1 - k) = ovl a s1 s0 k := by
  unfold ovl
  have h1 : (N - 1 - k) * s0 = N * s0 - (k + 1) * s0 := by
    have hx : N - 1 - k = N - (k + 1) := by omega
    rw [hx, Nat.sub_mul]
  have h2 : (N - 1 - k + 1) * s0 = N * s0 - k * s0 := by
    have hx : N - 1 - k + 1 = N - k := by omega
    rw [hx, Nat.sub_mul]
  have h3 : (k + 1) * s0 = k * s0 + s0 := by ring
  have h4 : k * s0 ≤ N * s0 := mul_le_mul_right' (by omega) s0
  have h5 : (k + 1) * s0 ≤ N * s0 := mul_le_mul_right' (by omega) s0
  omega

/-- Reading the X-mirrored raster at pixel `(l, k)` channel `c` reads
the original at `(l, W0-1-k)`. -/
lemma mirrorRasterX_read (W0 C : ℕ) (input : ℕ → ℕ) (l k c : ℕ)
    (hk : k < W0) (hc : c < C) :
    mirrorRasterX W0 C input ((l * W0 + k) * C + c)
      = input ((l * W0 + (W0 - 1 - k)) * C + c) := by
  have hC : 0 < C := by omega
  have hW : 0 < W0 := by omega
  unfold mirrorRasterX
  have h2 : k * C + c < W0 * C := by
    have h3 : (k + 1) * C ≤ W0 * C := mul_le_mul_right' (by omega) C
    have h4 : (k + 1) * C = k * C + C := by ring
    omega
  have hdiv : ((l * W0 + k) * C + c) / (W0 * C) = l := by
    rw [show (l * W0 + k) * C + c = W0 * C * l + (k * C + c) from by ring,
      Nat.mul_add_div (by positivity), Nat.div_eq_of_lt h2, add_zero]
  have hdivC : ((l * W0 + k) * C + c) / C = l * W0 + k := by
    rw [show (l * W0 + k) * C + c = C * (l * W0 + k) + c from by ring,
      Nat.mul_add_div hC, Nat.div_eq_of_lt hc, add_zero]
  have hmodW : (l * W0 + k) % W0 = k := by
    rw [show l * W0 + k = W0 * l + k from by ring, Nat.mul_add_mod,
      Nat.mod_eq_of_lt hk]
  have hmodC : ((l * W0 + k) * C + c) % C = c := by
    rw [show (l * W0 + k) * C + c = C * (l * W0 + k) + c from by ring,
      Nat.mul_add_mod, Nat.mod_eq_of_lt hc]
  rw [hdiv, hdivC, hmodW, hmodC]
  congr 1
  ring

/-- Claim C7: for a fixed deterministic grid (zero crop offset),
resizing then mirroring on X (via the kernel's `MirrorFlag.x` address
arithmetic) equals mirroring the source on X and resizing without
mirroring. -/
theorem mirrorX_commutes (H0 W0 H1 W1 C : ℕ) (input : ℕ → ℕ) (x y c : ℕ)
    (hH0 : 0 < H0) (hW0 : 0 < W0) (hH1 : 0 < H1) (hW1 : 0 < W1)
    (hC : C = 1 ∨ C = 3) (hx : x < W1) (hy : y < H1) (hc : c < C) :
    resizeOut true false W0 C (lcm W0 W1 / W0) (lcm H0 H1 / H0) (lcm W0 W1 / W1)
        (lcm H0 H1 / H1) 0 0 W1 H1 input y x c
      = resizeOut false false W0 C (lcm W0 W1 / W0) (lcm H0 H1 / H0) (lcm W0 W1 / W1)
        (lcm H0 H1 / H1) 0 0 W1 H1 (mirrorRasterX W0 C input) y x c := by
  have hsx0 := step_pos W0 W1 hW0 hW1
  have hsy0 := step_pos H0 H1 hH0 hH1
  have hsx1 := step_pos_right W0 W1 hW0 hW1
  have hsy1 := step_pos_right H0 H1 hH0 hH1
  have hCpos : 0 < C := by rcases hC with rfl | rfl <;> decide
  have hWlcm : W1 * (lcm W0 W1 / W1) = W0 * (lcm W0 W1 / W0) := by
    rw [mul_lcm_div_self_right W0 W1 hW0 hW1, mul_lcm_div_self_left W0 W1 hW0 hW1]
  have hHlcm : H1 * (lcm H0 H1 / H1) = H0 * (lcm H0 H1 / H0) := by
    rw [mul_lcm_div_self_right H0 H1 hH0 hH1, mul_lcm_div_self_left H0 H1 hH0 hH1]
  have hsum : x * (lcm W0 W1 / W1) + (W1 - 1 - x) * (lcm W0 W1 / W1) + lcm W0 W1 / W1
      = W0 * (lcm W0 W1 / W0) := by
    have h7 : x + (W1 - 1 - x) + 1 = W1 := by omega
    calc x * (lcm W0 W1 / W1) + (W1 - 1 - x) * (lcm W0 W1 / W1) + lcm W0 W1 / W1
        = (x + (W1 - 1 - x) + 1) * (lcm W0 W1 / W1) := by ring
      _ = W1 * (lcm W0 W1 / W1) := by rw [h7]
      _ = W0 * (lcm W0 W1 / W0) := hWlcm
  have hXL : (W1 - 1 - x) * (lcm W0 W1 / W1) + lcm W0 W1 / W1
      ≤ W0 * (lcm W0 W1 / W0) := by omega
  have hXR : x * (lcm W0 W1 / W1) + lcm W0 W1 / W1 ≤ W0 * (lcm W0 W1 / W0) := by omega
  have hYb : y * (lcm H0 H1 / H1) + lcm H0 H1 / H1 ≤ H0 * (lcm H0 H1 / H0) := by
    have h8 : (y + 1) * (lcm H0 H1 / H1) ≤ H1 * (lcm H0 H1 / H1) :=
      mul_le_mul_right' (by omega) _
    have h9 : y * (lcm H0 H1 / H1) + lcm H0 H1 / H1 = (y + 1) * (lcm H0 H1 / H1) := by
      ring
    omega
  unfold resizeOut fallbackPixel
  simp only [Bool.cond_true, Bool.cond_false, Nat.add_zero]
  congr 1
  rw [pixAcc_closed W0 H0 C _ _ _ _ _ _ c input hsx0 hsy0 hsx1 hsy1 hXL hYb,
    pixAcc_closed W0 H0 C _ _ _ _ _ _ c (mirrorRasterX W0 C input)
      hsx0 hsy0 hsx1 hsy1 hXR hYb]
  refine Finset.sum_congr rfl (fun l _ => ?_)
  congr 1
  have hstep1 : (Finset.range W0).sum
      (fun k => ovl (x * (lcm W0 W1 / W1)) (lcm W0 W1 / W1) (lcm W0 W1 / W0) k *
        mirrorRasterX W0 C input ((l * W0 + k) * C + c))
      = (Finset.range W0).sum
        (fun k => ovl (x * (lcm W0 W1 / W1)) (lcm W0 W1 / W1) (lcm W0 W1 / W0) k *
          input ((l * W0 + (W0 - 1 - k)) * C + c)) := by
    refine Finset.sum_congr rfl (fun k hk => ?_)
    rw [mirrorRasterX_read W0 C input l k c (Finset.mem_range.mp hk) hc]
  rw [hstep1]
  have hrefl := Finset.sum_range_reflect
    (fun k => ovl (x * (lcm W0 W1 / W1)) (lcm W0 W1 / W1) (lcm W0 W1 / W0) k *
      input ((l * W0 + (W0 - 1 - k)) * C + c)) W0
  rw [← hrefl]
  refine Finset.sum_congr rfl (fun k hk => ?_)
  have hkW : k < W0 := Finset.mem_range.mp hk
  have hinner : W0 - 1 - (W0 - 1 - k) = k := by omega
  rw [hinner, ovl_reflect ((W1 - 1 - x) * (lcm W0 W1 / W1)) (x * (lcm W0 W1 / W1))
    (lcm W0 W1 / W1) (lcm W0 W1 / W0) W0 k hkW (by omega)]

/-- Witness for C7 at `(H0,W0) = (1,2) → (H1,W1) = (1,4)`, `C = 1`,
pixel `(0, 1)`, input raster `a ↦ 5*a + 2`. -/
theorem mirrorX_commutes_witness :
    ((0 < 1 ∧ 0 < 2 ∧ 0 < 1 ∧ 0 < 4) ∧ (1 = 1 ∨ 1 = 3) ∧ (1 < 4 ∧ 0 < 1 ∧ 0 < 1)) ∧
      resizeOut true false 2 1 (lcm 2 4 / 2) (lcm 1 1 / 1) (lcm 2 4 / 4) (lcm 1 1 / 1)
        0 0 4 1 (fun a => 5 * a + 2) 0 1 0
      = resizeOut false false 2 1 (lcm 2 4 / 2) (lcm 1 1 / 1) (lcm 2 4 / 4) (lcm 1 1 / 1)
        0 0 4 1 (mirrorRasterX 2 1 (fun a => 5 * a + 2)) 0 1 0 :=
  ⟨⟨⟨by decide, by decide, by decide, by decide⟩, by decide, ⟨by decide, by decide, by decide⟩⟩,
    mirrorX_commutes 1 2 1 4 1 (fun a => 5 * a + 2) 1 0 0 (by decide) (by decide)
      (by decide) (by decide) (by decide) (by decide) (by decide) (by decide)⟩

/-! ## §8 Batch Resize Coordinator (crop.cc 272-379, 854-932)

`DataDependentSetupGPU` iterates the batch.  Per image it enforces a
3-dimensional shape with 1 or 3 channels, computes the grid parameters
`resizeParam[0] = (sx0, sy0)`, `[1] = (sx1, sy1)`, `[2] = (cropX, cropY)`
from the lcm of the input/output extents, compares them with the stored
parameters (`newResize` latches on the first difference, and once set the
fresh parameters are written back), and accumulates `sx0*sy0` into the
per-slice total with *saturating* 32-bit arithmetic (crop.cc 340-347):
`if (pTotalSize[idx] < UINT_MAX - sx0*sy0) pTotalSize[idx] += sx0*sy0;
else pTotalSize[idx] = UINT_MAX;`.  The input size is taken from the
input tensor shape (`SetSize`).  `DALI_ENFORCE` failures are modelled as
`Except.error`; the kernel dispatch of `NewResize<GPUBackend>::RunImpl`
happens only after the whole setup returns. -/

abbrev GridParams := (ℕ × ℕ) × (ℕ × ℕ) × (ℕ × ℕ)

structure ImgDescr where
  shape : List ℕ
  outH : ℕ
  outW : ℕ
  cropX : ℕ
  cropY : ℕ
deriving DecidableEq

def UINTMAX : ℕ := 4294967295

/-- Grid parameters computed for one image (crop.cc 317-337). -/
def computeGP (img : ImgDescr) : GridParams :=
  let H0 := img.shape.getD 0 0
  let W0 := img.shape.getD 1 0
  ((lcm W0 img.outW / W0, lcm H0 img.outH / H0),
   (lcm W0 img.outW / img.outW, lcm H0 img.outH / img.outH),
   (img.cropX, img.cropY))

/-- Saturating accumulation of `pTotalSize` (crop.cc 340-347). -/
def satAdd (tot add : ℕ) : ℕ := if tot < UINTMAX - add then tot + add else UINTMAX

def setupLoop (nSlice : ℕ) :
    List (GridParams × ImgDescr) → ℕ → Bool → (ℕ → ℕ) →
    Except String (Bool × List GridParams × (ℕ → ℕ))
  | [], _, flag, tot => .ok (flag, [], tot)
  | (prev, img) :: rest, i, flag, tot =>
    if img.shape.length = 3 then
      if img.shape.getD 2 0 = 1 ∨ img.shape.getD 2 0 = 3 then
        let gp := computeGP img
        let flag2 := flag || decide (prev ≠ gp)
        let stored := if flag2 then gp else prev
        let tot2 := fun idx =>
          if idx = i % nSlice then satAdd (tot (i % nSlice)) (gp.1.1 * gp.1.2)
          else tot idx
        match setupLoop nSlice rest (i + 1) flag2 tot2 with
        | .ok (f, l, t) => .ok (f, stored :: l, t)
        | .error e => .error e
      else .error "Not valid color type argument (1 or 3)"
    else .error "Expects 3-dimensional image input."

/-- `DataDependentSetupGPU` (crop.cc 272-379): validates every image,
detects grid-parameter changes against the stored `resizeParam_`, and
accumulates the per-slice table sizes; returns the `newResize` flag,
the updated stored parameters and the totals. -/
def dataDependentSetupGPU (nSlice : ℕ) (prev : List GridParams)
    (imgs : List ImgDescr) : Except String (Bool × List GridParams × (ℕ → ℕ)) :=
  setupLoop nSlice (prev.zip imgs) 0 false (fun _ => 0)

/-- `DataDependentSetupCPU` (crop.cc 239-270): shape/channel validation
and output-shape computation. -/
def dataDependentSetupCPU (shape : List ℕ) (outSize : Option (ℕ × ℕ)) :
    Except String (List ℕ) :=
  if shape.length = 3 then
    if shape.getD 2 0 = 1 ∨ shape.getD 2 0 = 3 then
      .ok (match outSize with
           | some (h, w) => [h, w, shape.getD 2 0]
           | none => shape)
    else .error "Operation supports only hwc rgb & grayscale inputs."
  else .error "Expects 3-dimensional image input."

/-- `NewResize<GPUBackend>::RunImpl` (crop.cc 854-932): the kernels are
dispatched only with the result of a successful setup. -/
def runImplModel (nSlice : ℕ) (prev : List GridParams) (imgs : List ImgDescr)
    (dispatch : Bool → ℕ) : Except String ℕ :=
  (dataDependentSetupGPU nSlice prev imgs).map (fun r => dispatch r.1)

lemma setupLoop_ok (nSlice : ℕ) :
    ∀ (l : List (GridParams × ImgDescr)) (i : ℕ) (flag : Bool) (tot : ℕ → ℕ)
      (r : Bool × List GridParams × (ℕ → ℕ)),
      setupLoop nSlice l i flag tot = .ok r →
      r.1 = (flag || l.any (fun pr => decide (pr.1 ≠ computeGP pr.2))) ∧
      r.2.1 = l.map (fun pr => computeGP pr.2) := by
  intro l
  induction l with
  | nil =>
    intro i flag tot r h
    simp only [setupLoop, Except.ok.injEq] at h
    rw [← h]
    simp
  | cons pr rest ih =>
    intro i flag tot r h
    obtain ⟨prev, img⟩ := pr
    simp only [setupLoop] at h
    by_cases h3 : img.shape.length = 3
    swap
    · rw [if_neg h3] at h
      exact absurd h (by simp)
    rw [if_pos h3] at h
    by_cases hc : img.shape.getD 2 0 = 1 ∨ img.shape.getD 2 0 = 3
    swap
    · rw [if_neg hc] at h
      exact absurd h (by simp)
    rw [if_pos hc] at h
    rcases hrec : setupLoop nSlice rest (i + 1)
        (flag || decide (prev ≠ computeGP img))
        (fun idx => if idx = i % nSlice
          then satAdd (tot (i % nSlice)) ((computeGP img).1.1 * (computeGP img).1.2)
          else tot idx) with e | ⟨f, lst, t⟩
    · rw [hrec] at h
      simp at h
    · rw [hrec] at h
      simp only [Except.ok.injEq] at h
      obtain ⟨hih1, hih2⟩ := ih (i + 1) _ _ _ hrec
      simp only at hih1 hih2
      rw [← h]
      dsimp only
      constructor
      · rw [hih1, List.any_cons, Bool.or_assoc]
      · rw [List.map_cons, List.cons.injEq]
        refine ⟨?_, hih2⟩
        by_cases hf : (flag || decide (prev ≠ computeGP img)) = true
        · rw [if_pos hf]
        · rw [if_neg hf]
          simp only [Bool.or_eq_true, decide_eq_true_eq, not_or, not_not] at hf
          exact hf.2

lemma setupLoop_err (nSlice : ℕ) :
    ∀ (l : List (GridParams × ImgDescr)) (i : ℕ) (flag : Bool) (tot : ℕ → ℕ),
      (∃ pr ∈ l, pr.2.shape.length ≠ 3 ∨
        (pr.2.shape.getD 2 0 ≠ 1 ∧ pr.2.shape.getD 2 0 ≠ 3)) →
      (setupLoop nSlice l i flag tot).toOption = none := by
  intro l
  induction l with
  | nil =>
    intro i flag tot h
    simp at h
  | cons pr rest ih =>
    intro i flag tot h
    obtain ⟨prev, img⟩ := pr
    by_cases hbad : img.shape.length ≠ 3 ∨
        (img.shape.getD 2 0 ≠ 1 ∧ img.shape.getD 2 0 ≠ 3)
    · simp only [setupLoop]
      rcases hbad with h3 | hcbad
      · rw [if_neg h3]
        rfl
      · by_cases h3' : img.shape.length = 3
        · rw [if_pos h3', if_neg (by rintro (h1 | h1) <;> omega :
            ¬ (img.shape.getD 2 0 = 1 ∨ img.shape.getD 2 0 = 3))]
          rfl
        · rw [if_neg h3']
          rfl
    · have htail : ∃ pr ∈ rest, pr.2.shape.length ≠ 3 ∨
          (pr.2.shape.getD 2 0 ≠ 1 ∧ pr.2.shape.getD 2 0 ≠ 3) := by
        rcases h with ⟨pr', hpr', hbad'⟩
        rcases List.mem_cons.mp hpr' with rfl | hmem
        · exact absurd hbad' hbad
        · exact ⟨pr', hmem, hbad'⟩
      push_neg at hbad
      simp only [setupLoop]
      rw [if_pos hbad.1]
      have hcok : img.shape.getD 2 0 = 1 ∨ img.shape.getD 2 0 = 3 := by
        by_cases h1 : img.shape.getD 2 0 = 1
        · exact Or.inl h1
        · exact Or.inr (hbad.2 h1)
      rw [if_pos hcok]
      have htailres := ih (i + 1) (flag || decide (prev ≠ computeGP img))
        (fun idx => if idx = i % nSlice
          then satAdd (tot (i % nSlice)) ((computeGP img).1.1 * (computeGP img).1.2)
          else tot idx) htail
      rcases hrec : setupLoop nSlice rest (i + 1)
          (flag || decide (prev ≠ computeGP img))
          (fun idx => if idx = i % nSlice
            then satAdd (tot (i % nSlice)) ((computeGP img).1.1 * (computeGP img).1.2)
            else tot idx) with e | ok
      · rfl
      · simp only [hrec, Except.toOption] at htailres
        exact absurd htailres (Option.some_ne_none ok)

lemma setupLoop_ok_of_valid (nSlice : ℕ) :
    ∀ (l : List (GridParams × ImgDescr)) (i : ℕ) (flag : Bool) (tot : ℕ → ℕ),
      (∀ pr ∈ l, pr.2.shape.length = 3 ∧
        (pr.2.shape.getD 2 0 = 1 ∨ pr.2.shape.getD 2 0 = 3)) →
      (setupLoop nSlice l i flag tot).toOption.isSome = true := by
  intro l
  induction l with
  | nil =>
    intro i flag tot _
    rfl
  | cons pr rest ih =>
    intro i flag tot h
    obtain ⟨prev, img⟩ := pr
    have hhead := h (prev, img) (List.mem_cons_self _ _)
    simp only [setupLoop]
    rw [if_pos hhead.1, if_pos hhead.2]
    have htailres := ih (i + 1) (flag || decide (prev ≠ computeGP img))
      (fun idx => if idx = i % nSlice
        then satAdd (tot (i % nSlice)) ((computeGP img).1.1 * (computeGP img).1.2)
        else tot idx)
      (fun pr' hpr' => h pr' (List.mem_cons_of_mem _ hpr'))
    rcases hrec : setupLoop nSlice rest (i + 1)
        (flag || decide (prev ≠ computeGP img))
        (fun idx => if idx = i % nSlice
          then satAdd (tot (i % nSlice)) ((computeGP img).1.1 * (computeGP img).1.2)
          else tot idx) with e | ⟨f, lst, t⟩
    · simp only [hrec, Except.toOption, Option.isSome_none] at htailres
      exact absurd htailres Bool.false_ne_true
    · rfl

lemma zip_all_eq (f : ImgDescr → GridParams) :
    ∀ (l1 : List GridParams) (l2 : List ImgDescr), l1.length = l2.length →
      ((∀ pr ∈ l1.zip l2, pr.1 = f pr.2) ↔ l1 = l2.map f) := by
  intro l1
  induction l1 with
  | nil =>
    intro l2 hl
    cases l2 with
    | nil => simp
    | cons b t2 => simp at hl
  | cons a t ih =>
    intro l2 hl
    cases l2 with
    | nil => simp at hl
    | cons b t2 =>
      simp only [List.zip_cons_cons, List.mem_cons, List.map_cons, List.cons.injEq]
      constructor
      · intro h
        refine ⟨h (a, b) (Or.inl rfl), (ih t2 (by simpa using hl)).mp ?_⟩
        intro pr hpr
        exact h pr (Or.inr hpr)
      · rintro ⟨rfl, ht⟩ pr hpr
        rcases hpr with rfl | hpr
        · rfl
        · exact (ih t2 (by simpa using hl)).mpr ht pr hpr

/-- Claim C2, amended: with valid shapes and equal lengths, the
coordinator succeeds, reports a rebuild exactly when some image's
computed grid parameters or crop offsets differ from the stored ones,
and stores the freshly computed parameters.  In particular a second
batch identical to the first reports no rebuild, while a key change
that leaves all computed parameters unchanged reports none either. -/
theorem setupGPU_rebuild_iff_params_changed (nSlice : ℕ) (prev : List GridParams)
    (imgs : List ImgDescr)
    (hlen : prev.length = imgs.length)
    (hvalid : ∀ img ∈ imgs, img.shape.length = 3 ∧
      (img.shape.getD 2 0 = 1 ∨ img.shape.getD 2 0 = 3)) :
    (dataDependentSetupGPU nSlice prev imgs).toOption.map (fun r => (r.1, r.2.1))
      = some (decide (prev ≠ imgs.map computeGP), imgs.map computeGP) := by
  have hvalid' : ∀ pr ∈ prev.zip imgs, pr.2.shape.length = 3 ∧
      (pr.2.shape.getD 2 0 = 1 ∨ pr.2.shape.getD 2 0 = 3) := by
    intro pr hpr
    exact hvalid pr.2 (List.of_mem_zip hpr).2
  have hsome := setupLoop_ok_of_valid nSlice (prev.zip imgs) 0 false (fun _ => 0) hvalid'
  unfold dataDependentSetupGPU
  rcases hres : setupLoop nSlice (prev.zip imgs) 0 false (fun _ => 0) with e | r
  · simp only [hres, Except.toOption, Option.isSome_none] at hsome
    exact absurd hsome Bool.false_ne_true
  · obtain ⟨hok1, hok2⟩ := setupLoop_ok nSlice (prev.zip imgs) 0 false (fun _ => 0) r hres
    have hiff := zip_all_eq computeGP prev imgs hlen
    have hflag : r.1 = decide (prev ≠ imgs.map computeGP) := by
      rw [hok1, Bool.false_or]
      by_cases hEq : prev = imgs.map computeGP
      · have hall := hiff.mpr hEq
        have hany : (prev.zip imgs).any (fun pr => decide (pr.1 ≠ computeGP pr.2))
            = false := by
          rw [List.any_eq_false]
          intro pr hpr
          simp [hall pr hpr]
        rw [hany]
        simp [hEq]
      · have hne : ∃ pr ∈ prev.zip imgs, pr.1 ≠ computeGP pr.2 := by
          by_contra hno
          push_neg at hno
          exact hEq (hiff.mp hno)
        obtain ⟨pr, hpr, hne⟩ := hne
        have hany : (prev.zip imgs).any (fun pr => decide (pr.1 ≠ computeGP pr.2))
            = true := by
          rw [List.any_eq_true]
          exact ⟨pr, hpr, by simp [hne]⟩
        rw [hany]
        simp [hEq]
    have hstored : r.2.1 = imgs.map computeGP := by
      rw [hok2, show (fun pr : GridParams × ImgDescr => computeGP pr.2)
          = computeGP ∘ Prod.snd from rfl, ← List.map_map,
        List.map_snd_zip prev imgs (le_of_eq hlen.symm)]
    simp only [Except.toOption, Option.map_some']
    rw [hflag, hstored]

/-- Witness for the amended C2 at a one-image batch whose stored
parameters already match. -/
theorem setupGPU_rebuild_iff_params_changed_witness :
    (([computeGP (ImgDescr.mk [2, 2, 3] 2 2 0 0)].length
        = [ImgDescr.mk [2, 2, 3] 2 2 0 0].length) ∧
      (∀ img ∈ [ImgDescr.mk [2, 2, 3] 2 2 0 0], img.shape.length = 3 ∧
        (img.shape.getD 2 0 = 1 ∨ img.shape.getD 2 0 = 3))) ∧
    (dataDependentSetupGPU 1 [computeGP (ImgDescr.mk [2, 2, 3] 2 2 0 0)]
        [ImgDescr.mk [2, 2, 3] 2 2 0 0]).toOption.map (fun r => (r.1, r.2.1))
      = some (decide ([computeGP (ImgDescr.mk [2, 2, 3] 2 2 0 0)]
          ≠ [ImgDescr.mk [2, 2, 3] 2 2 0 0].map computeGP),
        [ImgDescr.mk [2, 2, 3] 2 2 0 0].map computeGP) :=
  ⟨⟨by decide, by decide⟩,
    setupGPU_rebuild_iff_params_changed 1 [computeGP (ImgDescr.mk [2, 2, 3] 2 2 0 0)]
      [ImgDescr.mk [2, 2, 3] 2 2 0 0] (by decide) (by decide)⟩

/-- Counterexample to C2 as stated: across two consecutive one-image
batches the key `(H0,W0,H1,W1)` changes from `(2,2,2,2)` to `(4,4,4,4)`,
yet the coordinator reports no rebuild on the second batch (`false`),
because the computed grid parameters `((1,1),(1,1),(0,0))` coincide. -/
theorem setupGPU_rebuild_key_change_cex :
    (ImgDescr.mk [2, 2, 3] 2 2 0 0 ≠ ImgDescr.mk [4, 4, 3] 4 4 0 0) ∧
    ((dataDependentSetupGPU 1
        (((dataDependentSetupGPU 1 [((0, 0), (0, 0), (0, 0))]
            [ImgDescr.mk [2, 2, 3] 2 2 0 0]).toOption.map (fun r => r.2.1)).getD [])
        [ImgDescr.mk [4, 4, 3] 4 4 0 0]).toOption.map (fun r => r.1)) = some false := by
  constructor
  · decide
  · decide

/-- Claim C1, amended: when accumulating `sx0*sy0` would exceed the
32-bit counter, `DataDependentSetupGPU` saturates the per-slice total to
the sentinel `UINT_MAX` and proceeds; with valid shapes the setup always
succeeds — no resource-limit error is raised before table construction. -/
theorem setupGPU_saturates_and_proceeds (nSlice : ℕ) (prev : List GridParams)
    (imgs : List ImgDescr) (tot add : ℕ)
    (hvalid : ∀ img ∈ imgs, img.shape.length = 3 ∧
      (img.shape.getD 2 0 = 1 ∨ img.shape.getD 2 0 = 3))
    (hover : ¬ tot < UINTMAX - add) :
    satAdd tot add = UINTMAX ∧
    (dataDependentSetupGPU nSlice prev imgs).toOption.isSome = true := by
  constructor
  · unfold satAdd
    rw [if_neg hover]
  · apply setupLoop_ok_of_valid
    intro pr hpr
    exact hvalid pr.2 (List.of_mem_zip hpr).2

/-- Witness for the amended C1. -/
theorem setupGPU_saturates_and_proceeds_witness :
    ((∀ img ∈ ([] : List ImgDescr), img.shape.length = 3 ∧
        (img.shape.getD 2 0 = 1 ∨ img.shape.getD 2 0 = 3)) ∧
      ¬ 4000000000 < UINTMAX - 500000000) ∧
    (satAdd 4000000000 500000000 = UINTMAX ∧
      (dataDependentSetupGPU 1 [] []).toOption.isSome = true) :=
  ⟨⟨by decide, by decide⟩,
    setupGPU_saturates_and_proceeds 1 [] [] 4000000000 500000000 (by decide) (by decide)⟩

/-- Counterexample to C1 as stated: a batch of three `30001×50001`
images resized to `30000×50000` has `sx0*sy0 = 1500000000` per image;
the third accumulation would reach `4.5e9 > UINT_MAX`, yet the
coordinator does not fail — it saturates the slice total to the
`UINT_MAX` sentinel and returns normally. -/
theorem setupGPU_overflow_saturates_cex :
    (¬ 3000000000 < UINTMAX - 1500000000) ∧
    (dataDependentSetupGPU 1
        (List.replicate 3 (((0, 0), (0, 0), (0, 0)) : GridParams))
        (List.replicate 3 (ImgDescr.mk [30001, 50001, 1] 30000 50000 0 0))).toOption.map
      (fun r => r.2.2 0) = some UINTMAX := by
  constructor
  · decide
  · decide

lemma mem_zip_of_mem_right (l1 : List GridParams) (l2 : List ImgDescr)
    (hlen : l1.length = l2.length) (b : ImgDescr) (hb : b ∈ l2) :
    ∃ a, (a, b) ∈ l1.zip l2 := by
  induction l2 generalizing l1 with
  | nil => simp at hb
  | cons x t ih =>
    cases l1 with
    | nil => simp at hlen
    | cons a t1 =>
      rcases List.mem_cons.mp hb with rfl | hmem
      · exact ⟨a, List.mem_cons_self _ _⟩
      · obtain ⟨a', ha'⟩ := ih t1 (by simpa using hlen) hmem
        exact ⟨a', List.mem_cons_of_mem _ ha'⟩

/-- Claim C8: any input whose channel count is not 1 or 3 or whose shape
is not exactly 3-dimensional makes the setup functions (GPU and CPU)
fail with a configuration error, and in `RunImpl` no resampling kernel
is dispatched (the dispatch result is never produced); the kernel model
itself (`ResizeFunc`) is total and performs no such check. -/
theorem setup_rejects_invalid (nSlice : ℕ) (prev : List GridParams)
    (imgs : List ImgDescr) (dispatch : Bool → ℕ) (shape : List ℕ)
    (outSize : Option (ℕ × ℕ))
    (hlen : prev.length = imgs.length)
    (hbad : ∃ img ∈ imgs, img.shape.length ≠ 3 ∨
      (img.shape.getD 2 0 ≠ 1 ∧ img.shape.getD 2 0 ≠ 3))
    (hbadCPU : shape.length ≠ 3 ∨ (shape.getD 2 0 ≠ 1 ∧ shape.getD 2 0 ≠ 3)) :
    (runImplModel nSlice prev imgs dispatch).toOption = none ∧
    (dataDependentSetupCPU shape outSize).toOption = none := by
  constructor
  · obtain ⟨img, hmem, hbad'⟩ := hbad
    obtain ⟨a, ha⟩ := mem_zip_of_mem_right prev imgs hlen img hmem
    have herr := setupLoop_err nSlice (prev.zip imgs) 0 false (fun _ => 0)
      ⟨(a, img), ha, hbad'⟩
    unfold runImplModel dataDependentSetupGPU
    rcases hres : setupLoop nSlice (prev.zip imgs) 0 false (fun _ => 0) with e | r
    · rfl
    · simp only [hres, Except.toOption] at herr
      exact absurd herr (Option.some_ne_none r)
  · unfold dataDependentSetupCPU
    rcases hbadCPU with h3 | hc
    · rw [if_neg h3]
      rfl
    · by_cases h3' : shape.length = 3
      · rw [if_pos h3', if_neg (by rintro (h1 | h1) <;> omega :
          ¬ (shape.getD 2 0 = 1 ∨ shape.getD 2 0 = 3))]
        rfl
      · rw [if_neg h3']
        rfl

/-- Witness for C8: a `2×2×2`-shaped image (2 channels) is rejected by
both setup paths before any dispatch. -/
theorem setup_rejects_invalid_witness :
    (([((0, 0), (0, 0), (0, 0))] : List GridParams).length
        = [ImgDescr.mk [2, 2, 2] 2 2 0 0].length ∧
      (∃ img ∈ [ImgDescr.mk [2, 2, 2] 2 2 0 0], img.shape.length ≠ 3 ∨
        (img.shape.getD 2 0 ≠ 1 ∧ img.shape.getD 2 0 ≠ 3)) ∧
      (([2, 2] : List ℕ).length ≠ 3 ∨
        (([2, 2] : List ℕ).getD 2 0 ≠ 1 ∧ ([2, 2] : List ℕ).getD 2 0 ≠ 3))) ∧
    ((runImplModel 1 [((0, 0), (0, 0), (0, 0))] [ImgDescr.mk [2, 2, 2] 2 2 0 0]
        (fun _ => 0)).toOption = none ∧
      (dataDependentSetupCPU [2, 2] none).toOption = none) :=
  ⟨⟨by decide, by decide, by decide⟩,
    setup_rejects_invalid 1 [((0, 0), (0, 0), (0, 0))] [ImgDescr.mk [2, 2, 2] 2 2 0 0]
      (fun _ => 0) [2, 2] none (by decide) (by decide) (by decide)⟩

end dali
